import Mathlib

/-!
# Verification of the botcimghost asset-mirroring pipeline

A shallow embedding of the pipeline implemented in `src/lib/processScript.ts`
(together with its storage helpers in `src/lib/localStorage.ts` and the
S3/proxy/env modules): asset planning over a parsed script document,
per-plan download with proxy/direct attempt routing, content-addressed
deduplication, thumbnail generation, document rewriting, and the run
orchestrator.

External collaborators of the repository (the network fetch, the `sharp`
resizer, the S3 client, the randomized shuffle, and the mime-types lookup)
are modelled as explicit oracle parameters; all repository logic is
translated directly from the TypeScript source.  Machine integers do not
occur (JavaScript array indices and byte lengths are modelled as `Nat`);
byte strings are `List Nat`.
-/

set_option maxHeartbeats 1000000

namespace BotcImgHost

/-! ## JSON values

The parsed script document is an arbitrary JSON array (`ScriptDocument =
unknown[]` in the source).  JSON numbers never influence the pipeline
logic, so they are carried as `Int` payloads.  A JavaScript object is a
finite ordered key/value list with unique keys (as produced by
`JSON.parse`); property update keeps the position of an existing key and
appends a new one, mirroring JavaScript assignment semantics. -/

inductive Json where
  | null : Json
  | bool (b : Bool) : Json
  | num (n : Int) : Json
  | str (s : String) : Json
  | arr (elems : List Json) : Json
  | obj (fields : List (String × Json)) : Json

/-- Property read on a JavaScript object: the value at the first (unique)
matching key, or `none` when the property is absent. -/
def objGet (fields : List (String × Json)) (k : String) : Option Json :=
  match fields with
  | [] => none
  | (k₁, v) :: rest => if k₁ = k then some v else objGet rest k

/-- Property assignment on a JavaScript object: replaces the value of an
existing key in place, otherwise appends the new key. -/
def objSet (fields : List (String × Json)) (k : String) (v : Json) :
    List (String × Json) :=
  match fields with
  | [] => [(k, v)]
  | (k₁, v₁) :: rest =>
      if k₁ = k then (k₁, v) :: rest else (k₁, v₁) :: objSet rest k v

/-- The JavaScript nullish-coalescing operator `a ?? b` applied to a
possibly-absent property value: `null` and absence both fall through. -/
def jsonOr (a : Option Json) (b : Json) : Json :=
  match a with
  | some Json.null => b
  | some v => v
  | none => b

/-! ## String helpers from the source -/

/-- ASCII lowercase of one character, modelling
`String.prototype.toLowerCase` on the ASCII range (the only range the
pipeline compares against). -/
def asciiLowerChar (c : Char) : Char :=
  if 'A' ≤ c ∧ c ≤ 'Z' then Char.ofNat (c.toNat + 32) else c

/-- ASCII lowercase of a string. -/
def asciiLower (s : String) : String :=
  String.mk (s.toList.map asciiLowerChar)

/-- `isLikelyUrl` from `processScript.ts`: the case-insensitive regex test
`/^https?:\/\//i` on a string value. -/
def likelyUrl (s : String) : Bool :=
  let l := (asciiLower s).toList
  List.isPrefixOf "http://".toList l || List.isPrefixOf "https://".toList l

/-- `isLikelyUrl` on an arbitrary JSON value: a non-string is never a URL. -/
def isLikelyUrl (v : Json) : Bool :=
  match v with
  | Json.str s => likelyUrl s
  | _ => false

/-- Whether the character is in the ASCII class `[a-zA-Z0-9]`. -/
def isAsciiAlnum (c : Char) : Bool :=
  ('a' ≤ c ∧ c ≤ 'z') ∨ ('A' ≤ c ∧ c ≤ 'Z') ∨ ('0' ≤ c ∧ c ≤ '9')

/-- Whether the character is in the regex class `[\w.-]`
(`[A-Za-z0-9_.-]`), used for the per-asset name sanitizer. -/
def isWordDotDash (c : Char) : Bool :=
  isAsciiAlnum c || c = '_' || c = '.' || c = '-'

/-- The Unicode NFKD normalizer invoked by `toFriendlySegment` is a
JavaScript runtime builtin external to the repository; it is modelled as
the identity, which is exact on characters without a compatibility
decomposition (in particular on all ASCII input). -/
def nfkd (l : List Char) : List Char := l

/-- Replacement of every maximal run matching `[^a-zA-Z0-9]+` by a single
underscore (`.replace(/[^a-zA-Z0-9]+/g, "_")`); the flag records whether
the previous character belonged to a run already replaced. -/
def collapseNonAlnumAux : Bool → List Char → List Char
  | _, [] => []
  | inRun, c :: rest =>
      if isAsciiAlnum c then c :: collapseNonAlnumAux false rest
      else if inRun then collapseNonAlnumAux true rest
      else '_' :: collapseNonAlnumAux true rest

/-- Replacement of every maximal run matching `[^a-zA-Z0-9]+` by a single
underscore. -/
def collapseNonAlnum (l : List Char) : List Char :=
  collapseNonAlnumAux false l

/-- Replacement of every maximal run of underscores by a single one
(`.replace(/_+/g, "_")`). -/
def collapseUnderscoresAux : Bool → List Char → List Char
  | _, [] => []
  | inRun, c :: rest =>
      if c = '_' then
        if inRun then collapseUnderscoresAux true rest
        else '_' :: collapseUnderscoresAux true rest
      else c :: collapseUnderscoresAux false rest

/-- Replacement of every maximal run of underscores by a single one. -/
def collapseUnderscores (l : List Char) : List Char :=
  collapseUnderscoresAux false l

/-- The whitespace class stripped by `String.prototype.trim` (ASCII
range; the exotic Unicode space code points do not occur in the pipeline
comparisons). -/
def isJsWhitespace (c : Char) : Bool :=
  c = ' ' ∨ c = '\t' ∨ c = '\n' ∨ c = '\r' ∨ c.toNat = 11 ∨ c.toNat = 12

/-- `String.prototype.trim`. -/
def jsTrim (s : String) : String :=
  String.mk
    (((s.toList.dropWhile isJsWhitespace).reverse.dropWhile isJsWhitespace).reverse)

/-- Strip of leading and trailing underscores
(`.replace(/^_+|_+$/g, "")`). -/
def trimUnderscores (l : List Char) : List Char :=
  ((l.dropWhile (fun c => c = '_')).reverse.dropWhile (fun c => c = '_')).reverse

/-- Removal of combining diacritical marks
(`.replace(/[̀-ͯ]/g, "")`). -/
def stripCombining (l : List Char) : List Char :=
  l.filter (fun c => !(0x300 ≤ c.toNat ∧ c.toNat ≤ 0x36F))

/-- `toFriendlySegment` from `processScript.ts`, on a string input that
already passed the `typeof input === "string"` test: trim, NFKD
normalization, combining-mark removal, non-alphanumeric folding to
underscores, underscore trimming and collapsing, with the fallback when
the outcome is empty. -/
def toFriendlySegmentStr (input : String) (fallback : String) : String :=
  let trimmed := jsTrim input
  if trimmed = "" then fallback
  else
    let normalized :=
      collapseUnderscores
        (trimUnderscores
          (collapseNonAlnum (stripCombining (nfkd trimmed.toList))))
    if normalized.isEmpty then fallback else String.mk normalized

/-- `toFriendlySegment` from `processScript.ts` on an arbitrary value:
non-string input yields the fallback. -/
def toFriendlySegment (input : Json) (fallback : String) : String :=
  match input with
  | Json.str s => toFriendlySegmentStr s fallback
  | _ => fallback

/-- Whether `needle` occurs as a contiguous sublist of `haystack`,
modelling `String.prototype.includes`. -/
def listIncludes (haystack needle : List Char) : Bool :=
  match haystack with
  | [] => needle.isEmpty
  | _ :: rest =>
      needle.isPrefixOf haystack || listIncludes rest needle

/-- `String.prototype.includes` on strings. -/
def strIncludes (haystack needle : String) : Bool :=
  listIncludes haystack.toList needle.toList

/-! ## SHA-256

`hashContent` in the source calls `createHash("sha256")` from `node:crypto`.
The algorithm is implemented here directly (FIPS 180-4) over byte lists so
that key derivation is executable; 32-bit words are `Nat` reduced modulo
`2 ^ 32` by masking. -/

/-- 32-bit truncation. -/
def mask32 (x : Nat) : Nat := x &&& 0xffffffff

/-- 32-bit addition. -/
def add32 (a b : Nat) : Nat := mask32 (a + b)

/-- 32-bit right rotation. -/
def rotr32 (n x : Nat) : Nat := mask32 ((x >>> n) ||| (x <<< (32 - n)))

/-- SHA-256 small sigma 0. -/
def ssig0 (x : Nat) : Nat := (rotr32 7 x) ^^^ (rotr32 18 x) ^^^ (x >>> 3)

/-- SHA-256 small sigma 1. -/
def ssig1 (x : Nat) : Nat := (rotr32 17 x) ^^^ (rotr32 19 x) ^^^ (x >>> 10)

/-- SHA-256 big sigma 0. -/
def bsig0 (x : Nat) : Nat := (rotr32 2 x) ^^^ (rotr32 13 x) ^^^ (rotr32 22 x)

/-- SHA-256 big sigma 1. -/
def bsig1 (x : Nat) : Nat := (rotr32 6 x) ^^^ (rotr32 11 x) ^^^ (rotr32 25 x)

/-- SHA-256 choose function. -/
def shaCh (x y z : Nat) : Nat := (x &&& y) ^^^ ((x ^^^ 0xffffffff) &&& z)

/-- SHA-256 majority function. -/
def shaMaj (x y z : Nat) : Nat := (x &&& y) ^^^ (x &&& z) ^^^ (y &&& z)

/-- The SHA-256 round constants (decimal renderings of the FIPS 180-4
words). -/
def shaK : List Nat :=
  [1116352408, 1899447441, 3049323471, 3921009573,
   961987163, 1508970993, 2453635748, 2870763221,
   3624381080, 310598401, 607225278, 1426881987,
   1925078388, 2162078206, 2614888103, 3248222580,
   3835390401, 4022224774, 264347078, 604807628,
   770255983, 1249150122, 1555081692, 1996064986,
   2554220882, 2821834349, 2952996808, 3210313671,
   3336571891, 3584528711, 113926993, 338241895,
   666307205, 773529912, 1294757372, 1396182291,
   1695183700, 1986661051, 2177026350, 2456956037,
   2730485921, 2820302411, 3259730800, 3345764771,
   3516065817, 3600352804, 4094571909, 275423344,
   430227734, 506948616, 659060556, 883997877,
   958139571, 1322822218, 1537002063, 1747873779,
   1955562222, 2024104815, 2227730452, 2361852424,
   2428436474, 2756734187, 3204031479, 3329325298]

/-- The SHA-256 initial hash value (decimal renderings of the FIPS 180-4
words). -/
def shaH0 : List Nat :=
  [1779033703, 3144134277, 1013904242, 2773480762,
   1359893119, 2600822924, 528734635, 1541459225]

/-- Big-endian 8-byte encoding of a natural number. -/
def be64 (n : Nat) : List Nat :=
  (List.range 8).map (fun i => (n >>> (8 * (7 - i))) &&& 0xff)

/-- SHA-256 message padding. -/
def shaPad (msg : List Nat) : List Nat :=
  let l := msg.length
  let k := (64 - ((l + 9) % 64)) % 64
  msg ++ [0x80] ++ List.replicate k 0 ++ be64 (8 * l)

/-- Split into 64-byte blocks (the fuel argument bounds the recursion by
the byte count). -/
def chunks64Aux : Nat → List Nat → List (List Nat)
  | 0, _ => []
  | _ + 1, [] => []
  | fuel + 1, l => l.take 64 :: chunks64Aux fuel (l.drop 64)

/-- Split a padded message into its 64-byte blocks. -/
def chunks64 (l : List Nat) : List (List Nat) := chunks64Aux l.length l

/-- Big-endian 32-bit words of a block. -/
def bytesToWords : List Nat → List Nat
  | b0 :: b1 :: b2 :: b3 :: rest =>
      (((((b0 <<< 8) ||| b1) <<< 8) ||| b2) <<< 8 ||| b3) :: bytesToWords rest
  | _ => []

/-- Message-schedule extension: the accumulator holds the words produced
so far, newest first; each step prepends one new word. -/
def extendW : Nat → List Nat → List Nat
  | 0, acc => acc
  | n + 1, acc =>
      extendW n
        (add32 (add32 (ssig1 (acc.getD 1 0)) (acc.getD 6 0))
               (add32 (ssig0 (acc.getD 14 0)) (acc.getD 15 0)) :: acc)

/-- The full 64-word message schedule of one block. -/
def messageSchedule (block : List Nat) : List Nat :=
  (extendW 48 (bytesToWords block).reverse).reverse

/-- The eight working variables of the compression loop. -/
structure ShaState where
  a : Nat
  b : Nat
  c : Nat
  d : Nat
  e : Nat
  f : Nat
  g : Nat
  h : Nat

/-- One round of the SHA-256 compression function. -/
def shaRound (st : ShaState) (kw : Nat × Nat) : ShaState :=
  let t1 := add32 st.h (add32 (bsig1 st.e) (add32 (shaCh st.e st.f st.g) (add32 kw.1 kw.2)))
  let t2 := add32 (bsig0 st.a) (shaMaj st.a st.b st.c)
  { a := add32 t1 t2, b := st.a, c := st.b, d := st.c,
    e := add32 st.d t1, f := st.e, g := st.f, h := st.g }

/-- Compression of one 64-byte block into the running hash. -/
def shaCompress (hs : List Nat) (block : List Nat) : List Nat :=
  let w := messageSchedule block
  let init : ShaState :=
    { a := hs.getD 0 0, b := hs.getD 1 0, c := hs.getD 2 0, d := hs.getD 3 0,
      e := hs.getD 4 0, f := hs.getD 5 0, g := hs.getD 6 0, h := hs.getD 7 0 }
  let fin := (shaK.zip w).foldl shaRound init
  List.zipWith add32 hs [fin.a, fin.b, fin.c, fin.d, fin.e, fin.f, fin.g, fin.h]

/-- One lowercase hexadecimal digit. -/
def hexDigit (n : Nat) : Char :=
  if n < 10 then Char.ofNat (48 + n) else Char.ofNat (87 + n)

/-- Lowercase 8-digit hexadecimal rendering of a 32-bit word. -/
def hex8 (n : Nat) : String :=
  String.mk ((List.range 8).map (fun i => hexDigit ((n >>> (28 - 4 * i)) &&& 15)))

/-- The lowercase hex digest of SHA-256 over a byte list. -/
def sha256Hex (msg : List Nat) : String :=
  String.join (((chunks64 (shaPad msg)).foldl shaCompress shaH0).map hex8)

/-- `hashContent` from `processScript.ts`: the SHA-256 hex digest truncated
to its first 16 characters.  Content (a string or a buffer in the source)
is modelled as its byte list. -/
def hashContent (content : List Nat) : String :=
  (sha256Hex content).take 16

/-! ## Data model -/

/-- The `entryType` discriminator of an asset plan. -/
inductive EntryType where
  | character : EntryType
  | meta : EntryType
deriving DecidableEq

/-- `AssetPlan` from `processScript.ts`.  `entryName` is the raw value
`entry.name ?? entry.id` (typed `string` in the source but populated from
an `unknown` cast, so kept as a JSON value here); optional fields use
`Option`. -/
structure AssetPlan where
  scriptIndex : Nat
  entryType : EntryType
  entryId : String
  entryName : Json
  field : String
  originalUrl : String
  fileBaseName : String
  variantIndex : Option Nat
  variantLabel : Option String

/-- `AssetUploadResult` from `processScript.ts`: a plan plus its storage
outcome. -/
structure AssetUploadResult extends AssetPlan where
  storageKey : String
  publicUrl : String
  contentType : String
  size : Nat

/-- The storage mode selected once per run. -/
inductive StorageMode where
  | s3 : StorageMode
  | local : StorageMode
deriving DecidableEq

/-! ## Asset Planner (`characterAlignmentLabel`, `collectAssetPlans`) -/

/-- `characterAlignmentLabel` from `processScript.ts`.  The `team`
argument is the raw `entry.team` property (`none` when absent). -/
def characterAlignmentLabel (team : Option Json) (variantIndex totalVariants : Nat) :
    String :=
  if 1 < totalVariants then
    if variantIndex = 0 then "Good"
    else if variantIndex = 1 then "Evil"
    else "Variant" ++ toString (variantIndex + 1)
  else
    match team with
    | some (Json.str t) =>
        let lt := asciiLower t
        if lt = "townsfolk" ∨ lt = "outsider" then "Good"
        else if lt = "minion" ∨ lt = "demon" then "Evil"
        else if lt = "fabled" then "Fabled"
        else "Neutral"
    | _ => "Variant"

/-- `isScriptCharacter` from `processScript.ts`: a record with a string
`id` and an `image` property that is a string or an array. -/
def isScriptCharacter (entry : Json) : Bool :=
  match entry with
  | Json.obj e =>
      (match objGet e "id" with
       | some (Json.str _) => true
       | _ => false)
      &&
      (match objGet e "image" with
       | some (Json.str _) => true
       | some (Json.arr _) => true
       | _ => false)
  | _ => false

/-- `isMeta` from `processScript.ts`: a record whose lowercased `id` is
`meta`, or which carries a string `logo` or `background`. -/
def isMeta (entry : Json) : Bool :=
  match entry with
  | Json.obj e =>
      (match objGet e "id" with
       | some (Json.str s) => asciiLower s = "meta"
       | _ => false)
      ||
      (match objGet e "logo" with
       | some (Json.str _) => true
       | _ => false)
      ||
      (match objGet e "background" with
       | some (Json.str _) => true
       | _ => false)
  | _ => false

/-- One plan for a character image URL, as pushed by `collectAssetPlans`. -/
def mkCharacterPlan (index : Nat) (id : String) (rawName : Json)
    (entryName : String) (team : Option Json) (variantIndex totalVariants : Nat)
    (url : String) : AssetPlan :=
  { scriptIndex := index
    entryType := EntryType.character
    entryId := id
    entryName := rawName
    field := "image"
    originalUrl := url
    fileBaseName :=
      entryName ++ "_" ++ characterAlignmentLabel team variantIndex totalVariants
    variantIndex := some variantIndex
    variantLabel := some (characterAlignmentLabel team variantIndex totalVariants) }

/-- The `imageField.forEach((url, variantIndex) => ...)` loop over a
character image array: non-URL entries are skipped while keeping their
position as the variant index. -/
def characterArrayPlans (index : Nat) (id : String) (rawName : Json)
    (entryName : String) (team : Option Json) (totalVariants : Nat) :
    Nat → List Json → List AssetPlan
  | _, [] => []
  | vi, url :: rest =>
      (match url with
       | Json.str s =>
           if likelyUrl s then
             [mkCharacterPlan index id rawName entryName team vi totalVariants s]
           else []
       | _ => []) ++
      characterArrayPlans index id rawName entryName team totalVariants (vi + 1) rest

/-- The plans contributed by one top-level entry at position `index`
(the body of the `script.forEach` in `collectAssetPlans`). -/
def plansForEntry (index : Nat) (scriptName : String) (entry : Json) :
    List AssetPlan :=
  match entry with
  | Json.obj e =>
      if isScriptCharacter entry then
        let id := match objGet e "id" with
          | some (Json.str s) => s
          | _ => ""
        let rawName := jsonOr (objGet e "name") (Json.str id)
        let entryName := toFriendlySegment rawName id
        let team := objGet e "team"
        match objGet e "image" with
        | some (Json.str s) =>
            -- `if (!imageField) return;` skips the falsy empty string
            if s = "" then []
            else if likelyUrl s then
              [mkCharacterPlan index id rawName entryName team 0 1 s]
            else []
        | some (Json.arr imgs) =>
            characterArrayPlans index id rawName entryName team imgs.length 0 imgs
        | _ => []
      else if isMeta entry then
        let scriptSegment := toFriendlySegment (jsonOr (objGet e "name") Json.null) scriptName
        let entryId := match objGet e "id" with
          | some (Json.str s) => s
          | _ => "meta-" ++ toString index
        let rawName := jsonOr (objGet e "name") (Json.str "Meta")
        (match objGet e "logo" with
         | some (Json.str s) =>
             if likelyUrl s then
               [{ scriptIndex := index
                  entryType := EntryType.meta
                  entryId := entryId
                  entryName := rawName
                  field := "logo"
                  originalUrl := s
                  fileBaseName := scriptSegment ++ "_Logo"
                  variantIndex := none
                  variantLabel := some "Logo" }]
             else []
         | _ => []) ++
        (match objGet e "background" with
         | some (Json.str s) =>
             if likelyUrl s then
               [{ scriptIndex := index
                  entryType := EntryType.meta
                  entryId := entryId
                  entryName := rawName
                  field := "background"
                  originalUrl := s
                  fileBaseName := scriptSegment ++ "_Background"
                  variantIndex := none
                  variantLabel := some "Background" }]
             else []
         | _ => [])
      else []
  | _ => []

/-- The `script.forEach` of `collectAssetPlans`, generalized over the
index of the first entry: collects plans in document order and remembers
the last entry classified as meta. -/
def collectPlansAux (scriptName : String) : Nat → List Json → List AssetPlan × Option Json
  | _, [] => ([], none)
  | i, entry :: rest =>
      let tail := collectPlansAux scriptName (i + 1) rest
      (plansForEntry i scriptName entry ++ tail.1,
       match tail.2 with
       | some m => some m
       | none =>
           if !isScriptCharacter entry && isMeta entry then some entry else none)

/-- `collectAssetPlans` from `processScript.ts`: the ordered plan list and
the (last) meta entry. -/
def collectAssetPlans (script : List Json) (scriptName : String) :
    List AssetPlan × Option Json :=
  collectPlansAux scriptName 0 script

/-! ## Storage prefix and key derivation -/

/-- `makeStoragePrefix` from `processScript.ts`.  The raw script content
is a byte list; the script name (possibly a non-string runtime value, see
`processScriptUpload`) goes through `toFriendlySegment`. -/
def makeStoragePrefix (scriptContent : List Nat) (scriptName : Json) : String :=
  toFriendlySegment scriptName "Custom_Script" ++ "_" ++ hashContent scriptContent

/-- The pathname of an absolute `http(s)` URL as computed by the WHATWG
`URL` constructor: everything from the first slash after the authority up
to the query or fragment, defaulting to `/`. -/
def urlPathname (url : String) : String :=
  let cs := url.toList
  let afterScheme :=
    if listIncludes cs "://".toList then
      (cs.dropWhile (fun c => c ≠ ':')).drop 3
    else cs
  let afterAuthority :=
    afterScheme.dropWhile (fun c => c ≠ '/' ∧ c ≠ '?' ∧ c ≠ '#')
  match afterAuthority with
  | '/' :: _ => String.mk (afterAuthority.takeWhile (fun c => c ≠ '?' ∧ c ≠ '#'))
  | _ => "/"

/-- `path.extname` on a URL pathname followed by `.replace(/^\./, "")`:
the suffix of the last path segment after its final dot, empty when there
is no dot or when the dot is the first character of the segment. -/
def extnameNoDot (pathname : String) : String :=
  let base := ((pathname.toList.reverse.takeWhile (fun c => c ≠ '/')).reverse)
  let revTail := base.reverse.takeWhile (fun c => c ≠ '.')
  if revTail.length = base.length then ""          -- no dot in the segment
  else if revTail.length + 1 = base.length then "" -- the dot is the first character
  else String.mk revTail.reverse

/-- The `mime-types` library lookup `extension(contentType)`, an external
dependency, modelled on the content types this pipeline handles; unknown
types yield `none` (the library returns `false`). -/
def mimeExtension (contentType : String) : Option String :=
  if contentType = "image/png" then some "png"
  else if contentType = "image/jpeg" then some "jpeg"
  else if contentType = "image/gif" then some "gif"
  else if contentType = "image/webp" then some "webp"
  else if contentType = "image/svg+xml" then some "svg"
  else if contentType = "image/bmp" then some "bmp"
  else if contentType = "image/avif" then some "avif"
  else if contentType = "application/json" then some "json"
  else none

/-- `resolveExtension` from `processScript.ts`. -/
def resolveExtension (url : String) (contentType : Option String) : String :=
  let ext := extnameNoDot (urlPathname url)
  if ext ≠ "" then ext
  else
    match contentType with
    | none => "bin"
    | some ct => (mimeExtension ct).getD "bin"

/-- The per-character sanitizer `fileBaseName.replace(/[^\w.-]/g, "_")`
(each offending character is replaced individually). -/
def sanitizeBaseName (s : String) : String :=
  String.mk (s.toList.map (fun c => if isWordDotDash c then c else '_'))

/-- The derived content-addressed storage key
`{prefix}/{sanitizedBase}_{imageHash}.{extension}` computed inside
`downloadAssetPlan` after a successful fetch. -/
def assetKey (pfx fileBaseName : String) (bytes : List Nat) (url : String)
    (contentType : String) : String :=
  pfx ++ "/" ++ sanitizeBaseName fileBaseName ++ "_" ++ hashContent bytes
    ++ "." ++ resolveExtension url (some contentType)

/-- The derived key of the 256px companion variant,
`{prefix}/{sanitizedBase}_{imageHash}_256.{extension}`. -/
def resizedAssetKey (pfx fileBaseName : String) (bytes : List Nat) (url : String)
    (contentType : String) : String :=
  pfx ++ "/" ++ sanitizeBaseName fileBaseName ++ "_" ++ hashContent bytes
    ++ "_256." ++ resolveExtension url (some contentType)

/-! ## Download Coordinator

The network fetch (`fetchWithTimeout` over undici), the storage backend
(`uploadBuffer`/`writeLocalBuffer`), and the `sharp` resizer are external
collaborators; they are bundled into an oracle record.  `shuffle` is
randomized, so each call site receives the shuffled list as an input,
constrained to be a permutation where a theorem needs it.  The
`proxiesUsed` accumulator (a run-statistics set no claim concerns) is not
modelled. -/

/-- The fields of an undici response that the pipeline reads. -/
structure FetchResponse where
  status : Nat
  contentType : Option String
  bytes : List Nat

/-- Outcome of one timed fetch attempt: a response, or a thrown error
(timeout included) reduced to its detail string. -/
inductive FetchOutcome where
  | success (resp : FetchResponse) : FetchOutcome
  | failure (detail : String) : FetchOutcome

/-- The observable side effects of a run, in order. -/
inductive Action where
  | proxyListFetch : Action
  | fetchAttempt (url : String) (route : Option String) : Action
  | storeObject (key : String) (bytes : List Nat) : Action
  | storeJsonKey (key : String) : Action

/-- The store-call sublist of an action trace. -/
def storesOf (tr : List Action) : List (String × List Nat) :=
  tr.filterMap (fun a =>
    match a with
    | Action.storeObject k b => some (k, b)
    | _ => none)

/-- External collaborators of `downloadAssetPlan`. -/
structure DownloadEnv where
  fetch : String → Option String → FetchOutcome
  checkExists : String → Bool
  storeKeyOf : String → String
  publicUrlOf : String → String
  resize : List Nat → Option (List Nat)

/-- `MAX_PROXY_ATTEMPTS` from the source. -/
def MAX_PROXY_ATTEMPTS : Nat := 5

/-- `DIRECT_CONCURRENCY` from the source. -/
def DIRECT_CONCURRENCY : Nat := 4

/-- `PROXY_CONCURRENCY` from the source. -/
def PROXY_CONCURRENCY : Nat := 6

/-- JavaScript string truthiness of the optional preferred proxy. -/
def jsTruthyStr (s : Option String) : Bool :=
  match s with
  | some v => v ≠ ""
  | none => false

/-- The `for (const proxy of shuffle(pool))` loop of `buildProxyAttempts`:
the attempt list doubles as the seen-set, duplicates are skipped, and the
loop stops once the cap is reached (checked after each push). -/
def buildProxyLoop (cap : Nat) : List String → List String → List String
  | [], acc => acc
  | p :: rest, acc =>
      if acc.contains p then buildProxyLoop cap rest acc
      else if cap ≤ acc.length + 1 then acc ++ [p]
      else buildProxyLoop cap rest (acc ++ [p])

/-- `buildProxyAttempts` from `processScript.ts`, receiving the already
shuffled pool. -/
def buildProxyAttempts (preferred : Option String) (shuffledPool : List String)
    (maxExtra : Nat) : List String :=
  let initial := match preferred with
    | some p => if p = "" then [] else [p]
    | none => []
  if maxExtra = 0 then initial
  else
    let cap := if jsTruthyStr preferred then 1 + maxExtra else maxExtra
    buildProxyLoop cap shuffledPool initial

/-- The attempt-route list built at the top of `downloadAssetPlan`
(`none` is the direct, proxyless route). -/
def downloadAttempts (preferProxy : Bool) (proxyPool shuffledPool : List String)
    (preferredProxy : Option String) : List (Option String) :=
  let shouldAllowDirectFallback := !preferProxy || proxyPool.isEmpty
  let attempts : List (Option String) :=
    if preferProxy && !proxyPool.isEmpty then
      (buildProxyAttempts preferredProxy shuffledPool (MAX_PROXY_ATTEMPTS - 1)).map some
    else []
  if shouldAllowDirectFallback || attempts.isEmpty then attempts ++ [none]
  else attempts

/-- The `lastError` recorded for a thrown attempt
(`proxyCandidate ? `${proxyCandidate} -> ${detail}` : detail`). -/
def attemptErrorDetail (route : Option String) (detail : String) : String :=
  match route with
  | some p => if p = "" then detail else p ++ " -> " ++ detail
  | none => detail

/-- The terminal error message of `downloadAssetPlan`
(`Failed to download image: {url}{proxyHint}`). -/
def downloadFailureMessage (plan : AssetPlan) (lastError : Option String) : String :=
  "Failed to download image: " ++ plan.originalUrl ++
    (match lastError with
     | some e => if e = "" then "" else " (" ++ e ++ ")"
     | none => "")

/-- The `(256px)` sentinel label of a thumbnail result
(`plan.variantLabel ? `${plan.variantLabel} (256px)` : "256px"`). -/
def thumbnailLabel (variantLabel : Option String) : String :=
  match variantLabel with
  | some l => if l = "" then "256px" else l ++ " (256px)"
  | none => "256px"

/-- The body of `downloadAssetPlan` after a 2xx response: key derivation,
the dedup existence check, the upload or its skip, and the thumbnail
variant for character images.  Returns the results and the store calls. -/
def handleSuccess (plan : AssetPlan) (pfx : String) (env : DownloadEnv)
    (forceReprocess : Bool) (resp : FetchResponse) :
    List AssetUploadResult × List Action :=
  let contentType := resp.contentType.getD "application/octet-stream"
  let key := assetKey pfx plan.fileBaseName resp.bytes plan.originalUrl contentType
  let resizedKey := resizedAssetKey pfx plan.fileBaseName resp.bytes plan.originalUrl contentType
  let keyExists := !forceReprocess && env.checkExists key
  if keyExists then
    -- the asset already exists: an empty buffer is stored as the skip signal
    let original : AssetUploadResult :=
      { toAssetPlan := plan
        storageKey := key
        publicUrl := env.publicUrlOf key
        contentType := contentType
        size := resp.bytes.length }
    if plan.entryType = EntryType.character ∧ plan.field = "image" then
      let resizedExists := !forceReprocess && env.checkExists resizedKey
      if resizedExists then
        ([original,
          { toAssetPlan :=
              { plan with
                  fileBaseName := plan.fileBaseName ++ "_256"
                  variantLabel := some (thumbnailLabel plan.variantLabel) }
            storageKey := resizedKey
            publicUrl := env.publicUrlOf resizedKey
            contentType := contentType
            size := 0 }],
         [Action.storeObject key [], Action.storeObject resizedKey []])
      else
        match env.resize resp.bytes with
        | some resizedBytes =>
            ([original,
              { toAssetPlan :=
                  { plan with
                      fileBaseName := plan.fileBaseName ++ "_256"
                      variantLabel := some (thumbnailLabel plan.variantLabel) }
                storageKey := env.storeKeyOf resizedKey
                publicUrl := env.publicUrlOf resizedKey
                contentType := contentType
                size := resizedBytes.length }],
             [Action.storeObject key [], Action.storeObject resizedKey resizedBytes])
        | none =>
            -- a resize failure is logged and the asset proceeds without a thumbnail
            ([original], [Action.storeObject key []])
    else
      ([original], [Action.storeObject key []])
  else
    let original : AssetUploadResult :=
      { toAssetPlan := plan
        storageKey := env.storeKeyOf key
        publicUrl := env.publicUrlOf key
        contentType := contentType
        size := resp.bytes.length }
    if plan.entryType = EntryType.character ∧ plan.field = "image" then
      match env.resize resp.bytes with
      | some resizedBytes =>
          ([original,
            { toAssetPlan :=
                { plan with
                    fileBaseName := plan.fileBaseName ++ "_256"
                    variantLabel := some (thumbnailLabel plan.variantLabel) }
              storageKey := env.storeKeyOf resizedKey
              publicUrl := env.publicUrlOf resizedKey
              contentType := contentType
              size := resizedBytes.length }],
           [Action.storeObject key resp.bytes, Action.storeObject resizedKey resizedBytes])
      | none =>
          ([original], [Action.storeObject key resp.bytes])
    else
      ([original], [Action.storeObject key resp.bytes])

/-- Whether an undici response is `ok` (status in the 2xx range). -/
def responseOk (status : Nat) : Bool :=
  200 ≤ status ∧ status ≤ 299

/-- The `for (const proxyCandidate of attempts)` loop of
`downloadAssetPlan`: each attempt fetches, a non-2xx status or a thrown
error records `lastError` and moves on, a 2xx response runs the storage
body, and exhaustion throws the terminal error. -/
def attemptLoop (plan : AssetPlan) (pfx : String) (env : DownloadEnv)
    (forceReprocess : Bool) :
    List (Option String) → Option String →
    Except String (List AssetUploadResult) × List Action
  | [], lastError => (Except.error (downloadFailureMessage plan lastError), [])
  | route :: rest, _lastError =>
      match env.fetch plan.originalUrl route with
      | FetchOutcome.failure detail =>
          let next := attemptLoop plan pfx env forceReprocess rest
            (some (attemptErrorDetail route detail))
          (next.1, Action.fetchAttempt plan.originalUrl route :: next.2)
      | FetchOutcome.success resp =>
          if responseOk resp.status then
            let body := handleSuccess plan pfx env forceReprocess resp
            (Except.ok body.1, Action.fetchAttempt plan.originalUrl route :: body.2)
          else
            let next := attemptLoop plan pfx env forceReprocess rest
              (some ("status " ++ toString resp.status))
            (next.1, Action.fetchAttempt plan.originalUrl route :: next.2)

/-- `downloadAssetPlan` from `processScript.ts`: builds the attempt route
list and runs the attempt loop.  Returns the result list (the original
asset first, a thumbnail second when one was produced) together with the
trace of fetch attempts and store calls. -/
def downloadAssetPlan (plan : AssetPlan) (pfx : String) (env : DownloadEnv)
    (preferProxy : Bool) (proxyPool shuffledPool : List String)
    (preferredProxy : Option String) (forceReprocess : Bool) :
    Except String (List AssetUploadResult) × List Action :=
  attemptLoop plan pfx env forceReprocess
    (downloadAttempts preferProxy proxyPool shuffledPool preferredProxy) none

/-! ## Rewriter

The rewrite section of `processScriptUpload` works on two deep copies of
the parsed document (`structuredClone`); in this pure embedding a copy is
the value itself, and in-place mutation of an entry becomes replacement of
the list element. -/

/-- JavaScript array element assignment `xs[i] = v`: in range it replaces,
out of range it extends the array, the holes reading back as `null` once
serialized. -/
def jsSetIdx (xs : List Json) (i : Nat) (v : Json) : List Json :=
  if i < xs.length then xs.set i v
  else xs ++ List.replicate (i - xs.length) Json.null ++ [v]

/-- Whether a result row carries the `(256px)` thumbnail sentinel
(`asset.variantLabel?.includes("(256px)")`). -/
def isResizedLabel (variantLabel : Option String) : Bool :=
  match variantLabel with
  | some l => strIncludes l "(256px)"
  | none => false

/-- The thumbnail lookup map keyed by
`` `${scriptIndex}:{variantIndex ?? 0}` `` (the string key is injective in
the pair, and `Map.set` keeps the last binding, hence the last match). -/
def resizedLookup (resizedAssets : List AssetUploadResult) (si vi : Nat) :
    Option AssetUploadResult :=
  (resizedAssets.filter (fun t => t.scriptIndex = si && t.variantIndex.getD 0 = vi)).getLast?

/-- The preview URL written for an original result: the matched thumbnail
URL, or the original URL when no thumbnail exists
(`resizedAsset?.publicUrl ?? asset.publicUrl`). -/
def previewUrl (resizedAsset : Option AssetUploadResult) (a : AssetUploadResult) :
    String :=
  match resizedAsset with
  | some t => t.publicUrl
  | none => a.publicUrl

/-- The body of the `originalAssets.forEach` rewrite loop for one result:
skips when either copy does not hold a record at the target index, patches
the matching array slot or the scalar `image` field (the preview copy
receiving the thumbnail-or-original URL), and writes `logo`/`background`
identically into both copies. -/
def applyResult (resizedAssets : List AssetUploadResult)
    (docs : List Json × List Json) (a : AssetUploadResult) :
    List Json × List Json :=
  match docs.1.get? a.scriptIndex, docs.2.get? a.scriptIndex with
  | some (Json.obj e), some (Json.obj e256) =>
      if a.field = "image" then
        let resizedAsset := resizedLookup resizedAssets a.scriptIndex (a.variantIndex.getD 0)
        match objGet e "image" with
        | some (Json.arr xs) =>
            let idx := a.variantIndex.getD 0
            let d1 := docs.1.set a.scriptIndex
              (Json.obj (objSet e "image" (Json.arr (jsSetIdx xs idx (Json.str a.publicUrl)))))
            let d2 := match objGet e256 "image" with
              | some (Json.arr ys) =>
                  docs.2.set a.scriptIndex
                    (Json.obj (objSet e256 "image"
                      (Json.arr (jsSetIdx ys idx (Json.str (previewUrl resizedAsset a))))))
              | _ => docs.2
            (d1, d2)
        | _ =>
            (docs.1.set a.scriptIndex (Json.obj (objSet e "image" (Json.str a.publicUrl))),
             docs.2.set a.scriptIndex
               (Json.obj (objSet e256 "image" (Json.str (previewUrl resizedAsset a)))))
      else
        (docs.1.set a.scriptIndex (Json.obj (objSet e a.field (Json.str a.publicUrl))),
         docs.2.set a.scriptIndex (Json.obj (objSet e256 a.field (Json.str a.publicUrl))))
  | _, _ => docs

/-- The rewrite step of `processScriptUpload`: partition the flat result
list into originals and thumbnails by the `(256px)` sentinel, then apply
every original to both deep copies of the document. -/
def rewriteDocs (script : List Json) (processedAssets : List AssetUploadResult) :
    List Json × List Json :=
  let originalAssets := processedAssets.filter (fun a => !isResizedLabel a.variantLabel)
  let resizedAssets := processedAssets.filter (fun a => isResizedLabel a.variantLabel)
  originalAssets.foldl (applyResult resizedAssets) (script, script)

/-! ## Run Orchestrator (`processScriptUpload`)

The orchestrator is modelled from after JSON parsing and Ajv schema
validation (the schema file lives outside the pipeline and validation
performs no work relevant to any claim): the input is the parsed document
together with its raw byte content.  The bounded worker pool writes each
plan result into the slot addressed by its plan index and a single failure
rejects the whole batch, so the coordinator is serialized here in plan
order; per-worker data (the preferred proxy) and per-call randomness (the
shuffles) become index-keyed oracles. -/

/-- External collaborators and configuration of one pipeline run. -/
structure PipelineEnv where
  fetch : String → Option String → FetchOutcome
  s3Exists : String → Bool
  publicUrlOf : String → String
  resize : List Nat → Option (List Nat)
  storageMode : StorageMode
  preferProxy : Bool
  proxyList : List String
  planShuffle : Nat → List String
  preferredFor : Nat → Option String
  forceReprocess : Bool

/-- The per-run `checkExists` closure: S3 head-object in bucket mode,
constantly `false` in local mode. -/
def mkCheckExists (mode : StorageMode) (s3Exists : String → Bool) :
    String → Bool :=
  fun key =>
    match mode with
    | StorageMode.s3 => s3Exists key
    | StorageMode.local => false

/-- The storage key reported by the per-run `storeBuffer`/`storeJson`
closures: the raw key in bucket mode, the `local-mirror/`-prefixed key
reported by `writeLocalBuffer` in local mode. -/
def mkStoreKeyOf (mode : StorageMode) : String → String :=
  fun key =>
    match mode with
    | StorageMode.s3 => key
    | StorageMode.local => "local-mirror/" ++ key

/-- The download oracle record assembled by one run. -/
def mkDownloadEnv (env : PipelineEnv) : DownloadEnv :=
  { fetch := env.fetch
    checkExists := mkCheckExists env.storageMode env.s3Exists
    storeKeyOf := mkStoreKeyOf env.storageMode
    publicUrlOf := env.publicUrlOf
    resize := env.resize }

/-- The worker loop draining the plan list, serialized in plan order (the
result array is slot-addressed in the source, so the order is
schedule-independent); the first failing plan rejects the batch. -/
def runPlans (env : PipelineEnv) (pfx : String) (pool : List String) :
    Nat → List AssetPlan →
    Except String (List (List AssetUploadResult)) × List Action
  | _, [] => (Except.ok [], [])
  | i, plan :: rest =>
      let r := downloadAssetPlan plan pfx (mkDownloadEnv env) env.preferProxy pool
        (env.planShuffle i) (env.preferredFor i) env.forceReprocess
      match r.1 with
      | Except.error e => (Except.error e, r.2)
      | Except.ok assets =>
          let tail := runPlans env pfx pool (i + 1) rest
          (tail.1.map (fun rs => assets :: rs), r.2 ++ tail.2)

/-- `scriptName = requestedName ?? metaEntry?.name ?? "Custom Script"`:
the resolved name may be a non-string runtime value when the meta entry
carries one. -/
def resolveScriptName (requestedName : Option String) (metaEntry : Option Json) :
    Json :=
  match requestedName with
  | some n => Json.str n
  | none =>
      match metaEntry with
      | some (Json.obj m) => jsonOr (objGet m "name") (Json.str "Custom Script")
      | _ => Json.str "Custom Script"

/-- The response fields of `processScriptUpload` that the pipeline
computes (display-only fields — bucket name, timestamps, the
`proxiesUsed` statistics — are omitted). -/
structure ProcessedScriptResponse where
  scriptName : Json
  scriptSlug : String
  storagePrefix : String
  storageMode : StorageMode
  manifestKey : String
  originalScriptKey : String
  rewrittenScriptKey : String
  rewritten256ScriptKey : String
  assets : List AssetUploadResult
  rewrittenScript : List Json
  rewritten256Script : List Json
  proxyEnabled : Bool

/-- `processScriptUpload` from `processScript.ts`, from the validated
parsed document on: plan collection, the empty-plan failure, the proxy
pool fetch, the coordinated downloads, the rewrite, and the persistence
of the manifest and the three documents.  Returns the outcome together
with the ordered trace of externally visible effects. -/
def processScriptUpload (scriptContent : List Nat) (script : List Json)
    (requestedName : Option String) (env : PipelineEnv) :
    Except String ProcessedScriptResponse × List Action :=
  let planned := collectAssetPlans script (requestedName.getD "Script")
  let plans := planned.1
  if plans.isEmpty then
    (Except.error "No image URLs were found in the provided script.", [])
  else
    let scriptName := resolveScriptName requestedName planned.2
    let scriptSlug := toFriendlySegment scriptName "Custom_Script"
    let pfx := makeStoragePrefix scriptContent scriptName
    let proxyPool := if env.preferProxy then env.proxyList else []
    let proxyTrace := if env.preferProxy then [Action.proxyListFetch] else []
    let downloads := runPlans env pfx proxyPool 0 plans
    match downloads.1 with
    | Except.error e => (Except.error e, proxyTrace ++ downloads.2)
    | Except.ok perPlan =>
        let processedAssets := perPlan.flatten
        let rewritten := rewriteDocs script processedAssets
        let manifestKey := pfx ++ "/manifest.json"
        let originalKey := pfx ++ "/original.json"
        let rewrittenKey := pfx ++ "/rewritten.json"
        let rewritten256Key := pfx ++ "/rewritten_256.json"
        (Except.ok
          { scriptName := scriptName
            scriptSlug := scriptSlug
            storagePrefix := pfx
            storageMode := env.storageMode
            manifestKey := mkStoreKeyOf env.storageMode manifestKey
            originalScriptKey := mkStoreKeyOf env.storageMode originalKey
            rewrittenScriptKey := mkStoreKeyOf env.storageMode rewrittenKey
            rewritten256ScriptKey := mkStoreKeyOf env.storageMode rewritten256Key
            assets := processedAssets
            rewrittenScript := rewritten.1
            rewritten256Script := rewritten.2
            proxyEnabled := env.preferProxy && !proxyPool.isEmpty },
         proxyTrace ++ downloads.2 ++
           [Action.storeJsonKey manifestKey, Action.storeJsonKey originalKey,
            Action.storeJsonKey rewrittenKey, Action.storeJsonKey rewritten256Key])

/-! ## Planner lemmas -/

/-- The per-plan mutation target: script index, variant index defaulted to
zero, and target field. -/
def planKey (p : AssetPlan) : Nat × Nat × String :=
  (p.scriptIndex, p.variantIndex.getD 0, p.field)

/-- Every plan emitted by the character image-array loop carries the
owning script index, the `image` field, and a variant index at least the
loop position. -/
theorem characterArrayPlans_mem (i : Nat) (id : String) (rn : Json) (en : String)
    (tm : Option Json) (tot : Nat) (l : List Json) (vi : Nat) (p : AssetPlan)
    (h : p ∈ characterArrayPlans i id rn en tm tot vi l) :
    p.scriptIndex = i ∧ p.field = "image" ∧ ∃ v, p.variantIndex = some v ∧ vi ≤ v := by
  induction l generalizing vi with
  | nil => simp [characterArrayPlans] at h
  | cons url rest ih =>
      simp only [characterArrayPlans, List.mem_append] at h
      rcases h with h | h
      · cases url <;> simp at h
        case str s =>
          obtain ⟨-, h⟩ := h
          subst h
          exact ⟨rfl, rfl, vi, rfl, Nat.le_refl _⟩
      · obtain ⟨h1, h2, v, h3, h4⟩ := ih (vi + 1) h
        exact ⟨h1, h2, v, h3, Nat.le_of_succ_le h4⟩

/-- Plans from one character image array have pairwise distinct targets. -/
theorem characterArrayPlans_pairwise (i : Nat) (id : String) (rn : Json) (en : String)
    (tm : Option Json) (tot : Nat) (l : List Json) (vi : Nat) :
    (characterArrayPlans i id rn en tm tot vi l).Pairwise
      (fun a b => planKey a ≠ planKey b) := by
  induction l generalizing vi with
  | nil => simp [characterArrayPlans]
  | cons url rest ih =>
      simp only [characterArrayPlans]
      refine List.pairwise_append.mpr ⟨?_, ih (vi + 1), ?_⟩
      · cases url <;> simp
        case str s => split <;> simp
      · intro a ha b hb
        cases url <;> simp at ha
        case str s =>
          obtain ⟨-, ha⟩ := ha
          subst ha
          obtain ⟨_, _, v, hv, hge⟩ :=
            characterArrayPlans_mem i id rn en tm tot rest (vi + 1) b hb
          intro hk
          simp only [planKey, mkCharacterPlan, Prod.mk.injEq, hv,
            Option.getD_some] at hk
          omega

/-- Every plan of one entry carries that entry's script index. -/
theorem plansForEntry_scriptIndex (i : Nat) (n : String) (entry : Json)
    (p : AssetPlan) (h : p ∈ plansForEntry i n entry) : p.scriptIndex = i := by
  cases entry <;> simp [plansForEntry] at h
  case obj e =>
    split at h
    · split at h
      · split at h <;> simp at h
        obtain ⟨-, h⟩ := h
        subst h; rfl
      · exact (characterArrayPlans_mem _ _ _ _ _ _ _ _ _ h).1
      · simp at h
    · split at h
      · simp only [List.mem_append] at h
        rcases h with h | h
        · split at h <;> simp at h
          obtain ⟨-, h⟩ := h
          subst h; rfl
        · split at h <;> simp at h
          obtain ⟨-, h⟩ := h
          subst h; rfl
      · simp at h

/-- Plans from a single entry have pairwise distinct targets (the two meta
singleton plans differ in their field). -/
theorem plansForEntry_pairwise (i : Nat) (n : String) (entry : Json) :
    (plansForEntry i n entry).Pairwise (fun a b => planKey a ≠ planKey b) := by
  cases entry <;> simp [plansForEntry]
  case obj e =>
    split
    · split
      · split
        · simp
        · split <;> simp
      · exact characterArrayPlans_pairwise _ _ _ _ _ _ _ _
      · simp
    · split
      · refine List.pairwise_append.mpr ⟨?_, ?_, ?_⟩
        · split
          · split <;> simp
          · simp
        · split
          · split <;> simp
          · simp
        · intro a ha b hb
          split at ha <;> simp at ha
          split at hb <;> simp at hb
          obtain ⟨-, ha⟩ := ha
          obtain ⟨-, hb⟩ := hb
          subst ha; subst hb
          simp [planKey]
      · simp

/-- Every plan collected from position `i` onward has script index at
least `i`. -/
theorem collectPlansAux_scriptIndex_ge (n : String) (i : Nat) (l : List Json)
    (p : AssetPlan) (h : p ∈ (collectPlansAux n i l).1) : i ≤ p.scriptIndex := by
  induction l generalizing i with
  | nil => simp [collectPlansAux] at h
  | cons entry rest ih =>
      simp only [collectPlansAux, List.mem_append] at h
      rcases h with h | h
      · exact Nat.le_of_eq (plansForEntry_scriptIndex i n entry p h).symm
      · exact Nat.le_of_succ_le (ih (i + 1) h)

/-- The collected plan list has pairwise distinct targets. -/
theorem collectPlansAux_pairwise (n : String) (i : Nat) (l : List Json) :
    ((collectPlansAux n i l).1).Pairwise (fun a b => planKey a ≠ planKey b) := by
  induction l generalizing i with
  | nil => simp [collectPlansAux]
  | cons entry rest ih =>
      simp only [collectPlansAux]
      refine List.pairwise_append.mpr ⟨plansForEntry_pairwise i n entry, ih (i + 1), ?_⟩
      intro a ha b hb
      have hai := plansForEntry_scriptIndex i n entry a ha
      have hbi := collectPlansAux_scriptIndex_ge n (i + 1) rest b hb
      intro hk
      simp only [planKey, Prod.mk.injEq] at hk
      omega

/-! ## Claim C2 -/

/-- A meta entry carrying both a logo and a background URL. -/
def c2Doc : List Json :=
  [Json.obj [("id", Json.str "meta"),
             ("logo", Json.str "http://h/l.png"),
             ("background", Json.str "http://h/b.png")]]

/-- **C2 counterexample**: the claim asserts that every plan receives a
unique `(scriptIndex, variantIndex-or-0)` pair, including when a meta
entry has both a logo and a background field; on exactly that document the
two meta plans share the pair `(0, 0)`, so the mapped pair list is not
duplicate-free. -/
theorem c2_pair_not_unique_counterexample :
    ((collectAssetPlans c2Doc "S").1.map
        (fun p => (p.scriptIndex, p.variantIndex.getD 0))) = [(0, 0), (0, 0)] ∧
    ¬ (((collectAssetPlans c2Doc "S").1.map
        (fun p => (p.scriptIndex, p.variantIndex.getD 0))).Nodup) := by
  have h : ((collectAssetPlans c2Doc "S").1.map
      (fun p => (p.scriptIndex, p.variantIndex.getD 0))) = [(0, 0), (0, 0)] := by
    decide
  refine ⟨h, ?_⟩
  rw [h]
  intro hnd
  exact (List.nodup_cons.mp hnd).1 (List.mem_singleton.mpr rfl)

/-- **C2 (amended)**: for every input document, `collectAssetPlans`
assigns a unique `(scriptIndex, variantIndex-or-0, field)` triple to each
plan; the pair alone is unique among character plans, but a meta entry
with both a logo and a background yields two plans sharing the pair,
distinguished only by the field. -/
theorem c2_plan_target_triple_unique (script : List Json) (scriptName : String) :
    (((collectAssetPlans script scriptName).1).map planKey).Nodup := by
  rw [List.Nodup, List.pairwise_map]
  exact collectPlansAux_pairwise scriptName 0 script

/-! ## Claim C8 -/

/-- **C8**: `characterAlignmentLabel` implements the fixed labeling rule —
for a multi-element image list the label is positional (index 0 `Good`,
index 1 `Evil`, later indices `VariantN`) independently of the team value,
and for a single image it is the team lookup (townsfolk/outsider `Good`,
minion/demon `Evil`, fabled `Fabled`, other strings `Neutral`, absent team
`Variant`). -/
theorem c8_alignment_label_rule (team : Option Json) (vi total : Nat) :
    (characterAlignmentLabel team vi total =
      if 1 < total then
        if vi = 0 then "Good"
        else if vi = 1 then "Evil"
        else "Variant" ++ toString (vi + 1)
      else
        match team with
        | some (Json.str t) =>
            if asciiLower t ∈ (["townsfolk", "outsider"] : List String) then "Good"
            else if asciiLower t ∈ (["minion", "demon"] : List String) then "Evil"
            else if asciiLower t = "fabled" then "Fabled"
            else "Neutral"
        | _ => "Variant") ∧
    (1 < total →
      characterAlignmentLabel team vi total = characterAlignmentLabel none vi total) := by
  constructor
  · unfold characterAlignmentLabel
    by_cases h : 1 < total
    · simp [h]
    · simp only [h, if_false]
      cases team with
      | none => rfl
      | some t =>
          cases t <;> simp [List.mem_cons]
  · intro h
    unfold characterAlignmentLabel
    simp [h]

/-- **C8 witness**: at index 2 of a three-image list the label ignores the
`demon` team value. -/
theorem c8_alignment_label_rule_witness :
    (1 : Nat) < 3 ∧
    characterAlignmentLabel (some (Json.str "demon")) 2 3 =
      characterAlignmentLabel none 2 3 :=
  ⟨by decide, (c8_alignment_label_rule (some (Json.str "demon")) 2 3).2 (by decide)⟩

/-! ## Claim C4 -/

/-- The proxy-attempt loop never discards attempts already accumulated. -/
theorem buildProxyLoop_ne_nil (cap : Nat) (l acc : List String) (h : acc ≠ []) :
    buildProxyLoop cap l acc ≠ [] := by
  induction l generalizing acc with
  | nil => simpa [buildProxyLoop] using h
  | cons p rest ih =>
      simp only [buildProxyLoop]
      split
      · exact ih acc h
      · split
        · simp
        · exact ih (acc ++ [p]) (by simp)

/-- Starting the proxy-attempt loop on a non-empty pool with an empty
accumulator yields at least one attempt. -/
theorem buildProxyLoop_cons_nil_ne (cap : Nat) (p : String) (rest : List String) :
    buildProxyLoop cap (p :: rest) [] ≠ [] := by
  simp only [buildProxyLoop]
  have hc : ([] : List String).contains p = false := rfl
  rw [hc]
  rw [if_neg (by simp)]
  split
  · simp
  · exact buildProxyLoop_ne_nil _ _ _ (by simp)

/-- With a positive extra-attempt budget and a non-empty shuffled pool,
`buildProxyAttempts` returns at least one attempt. -/
theorem buildProxyAttempts_ne_nil (preferred : Option String)
    (shuffledPool : List String) (maxExtra : Nat) (hm : maxExtra ≠ 0)
    (h : shuffledPool ≠ []) :
    buildProxyAttempts preferred shuffledPool maxExtra ≠ [] := by
  unfold buildProxyAttempts
  rw [if_neg hm]
  cases preferred with
  | none =>
      cases shuffledPool with
      | nil => exact absurd rfl h
      | cons p rest => exact buildProxyLoop_cons_nil_ne _ p rest
  | some s =>
      by_cases hs : s = ""
      · subst hs
        cases shuffledPool with
        | nil => exact absurd rfl h
        | cons p rest =>
            show buildProxyLoop _ (p :: rest) (if ("" : String) = "" then [] else [""]) ≠ []
            rw [if_pos rfl]
            exact buildProxyLoop_cons_nil_ne _ p rest
      · show buildProxyLoop _ shuffledPool (if s = "" then [] else [s]) ≠ []
        rw [if_neg hs]
        exact buildProxyLoop_ne_nil _ _ _ (by simp)

/-- **C4**: the attempt list built by `downloadAssetPlan` contains the
direct (no-proxy) route `none` exactly when proxy mode is inactive or the
proxy pool is empty, in which case the attempt list is exactly the single
direct attempt; when proxy mode is active with a non-empty pool the
direct fallback is withheld. -/
theorem c4_direct_fallback_policy (preferProxy : Bool)
    (proxyPool shuffledPool : List String) (preferredProxy : Option String)
    (hperm : shuffledPool.Perm proxyPool) :
    ((none ∈ downloadAttempts preferProxy proxyPool shuffledPool preferredProxy) ↔
      (preferProxy = false ∨ proxyPool = [])) ∧
    ((preferProxy = false ∨ proxyPool = []) →
      downloadAttempts preferProxy proxyPool shuffledPool preferredProxy = [none]) := by
  by_cases hp : preferProxy
  · subst hp
    by_cases hpool : proxyPool = []
    · subst hpool
      simp [downloadAttempts]
    · have hsh : shuffledPool ≠ [] := by
        intro hcon
        subst hcon
        exact hpool hperm.symm.eq_nil
      have hne := buildProxyAttempts_ne_nil preferredProxy shuffledPool
        (MAX_PROXY_ATTEMPTS - 1) (by decide) hsh
      have hie : proxyPool.isEmpty = false := by
        simp [List.isEmpty_iff, hpool]
      have hda : downloadAttempts true proxyPool shuffledPool preferredProxy =
          (buildProxyAttempts preferredProxy shuffledPool
            (MAX_PROXY_ATTEMPTS - 1)).map some := by
        unfold downloadAttempts
        simp [hie, List.isEmpty_iff, hne]
      constructor
      · rw [hda]
        simp [hpool]
      · intro hc
        rcases hc with hc | hc
        · exact absurd hc (by simp)
        · exact absurd hc hpool
  · have hp0 : preferProxy = false := by simpa using hp
    subst hp0
    constructor
    · simp [downloadAttempts]
    · intro _
      simp [downloadAttempts]

/-- **C4 witness**: a one-proxy pool in active proxy mode yields an
attempt list without the direct route. -/
theorem c4_direct_fallback_policy_witness :
    (["p"].Perm ["p"]) ∧
    ¬ (none ∈ downloadAttempts true ["p"] ["p"] none) :=
  ⟨List.Perm.refl _,
   fun h => by
     have := (c4_direct_fallback_policy true ["p"] ["p"] none (List.Perm.refl _)).1.mp h
     simp at this⟩

/-! ## Claim C9 -/

/-- **C9**: whenever plan collection yields an empty list, the run fails
with the `NoAssetsFound` message and the effect trace is empty — in
particular no proxy-list fetch, no asset fetch, and no storage call has
happened. -/
theorem c9_no_assets_fails_before_effects (scriptContent : List Nat)
    (script : List Json) (requestedName : Option String) (env : PipelineEnv)
    (h : (collectAssetPlans script (requestedName.getD "Script")).1 = []) :
    processScriptUpload scriptContent script requestedName env =
      (Except.error "No image URLs were found in the provided script.", []) := by
  unfold processScriptUpload
  simp [h]

/-- A document whose only entry carries no image URL. -/
def c9Doc : List Json :=
  [Json.obj [("id", Json.str "imp"), ("name", Json.str "Imp")]]

/-- A concrete run environment used by witnesses. -/
def c9Env : PipelineEnv :=
  { fetch := fun _ _ => FetchOutcome.failure "unreachable"
    s3Exists := fun _ => false
    publicUrlOf := fun k => k
    resize := fun _ => none
    storageMode := StorageMode.local
    preferProxy := false
    proxyList := []
    planShuffle := fun _ => []
    preferredFor := fun _ => none
    forceReprocess := false }

/-- **C9 witness**: a document with no plannable URL takes the
`NoAssetsFound` exit with an empty trace. -/
theorem c9_no_assets_fails_before_effects_witness :
    (collectAssetPlans c9Doc "Script").1 = [] ∧
    processScriptUpload [] c9Doc none c9Env =
      (Except.error "No image URLs were found in the provided script.", []) :=
  ⟨rfl, c9_no_assets_fails_before_effects [] c9Doc none c9Env rfl⟩

/-! ## Download lemmas -/

/-- A successful download comes from a 2xx response on one of the
attempted routes, and both the result list and the store calls are those
of the success body for that response. -/
theorem attemptLoop_ok_characterization (plan : AssetPlan) (pfx : String)
    (env : DownloadEnv) (force : Bool) (routes : List (Option String))
    (le : Option String) (rs : List AssetUploadResult)
    (h : (attemptLoop plan pfx env force routes le).1 = Except.ok rs) :
    ∃ route resp, env.fetch plan.originalUrl route = FetchOutcome.success resp ∧
      responseOk resp.status = true ∧
      rs = (handleSuccess plan pfx env force resp).1 ∧
      storesOf (attemptLoop plan pfx env force routes le).2 =
        storesOf (handleSuccess plan pfx env force resp).2 := by
  induction routes generalizing le with
  | nil => simp [attemptLoop] at h
  | cons route rest ih =>
      simp only [attemptLoop] at h ⊢
      cases hf : env.fetch plan.originalUrl route with
      | failure detail =>
          rw [hf] at h
          dsimp only at h ⊢
          obtain ⟨r2, resp, h1, h2, h3, h4⟩ := ih _ h
          refine ⟨r2, resp, h1, h2, h3, ?_⟩
          simpa [storesOf, List.filterMap_cons] using h4
      | success resp =>
          rw [hf] at h
          dsimp only at h ⊢
          by_cases hok : responseOk resp.status
          · rw [if_pos hok] at h ⊢
            simp only [Except.ok.injEq] at h
            exact ⟨route, resp, hf, hok, h.symm, by
              simp [storesOf, List.filterMap_cons]⟩
          · rw [if_neg hok] at h ⊢
            obtain ⟨r2, resp2, h1, h2, h3, h4⟩ := ih _ h
            refine ⟨r2, resp2, h1, h2, h3, ?_⟩
            simpa [storesOf, List.filterMap_cons] using h4

/-- On a dedup hit (key exists, reprocessing off) the success body reports
the downloaded byte length as the original result size and issues an
empty-buffer store call for the original key. -/
theorem handleSuccess_dedup_head (plan : AssetPlan) (pfx : String)
    (env : DownloadEnv) (resp : FetchResponse)
    (hex : env.checkExists (assetKey pfx plan.fileBaseName resp.bytes
      plan.originalUrl (resp.contentType.getD "application/octet-stream")) = true) :
    ∃ r tail, (handleSuccess plan pfx env false resp).1 = r :: tail ∧
      r.size = resp.bytes.length ∧
      r.storageKey = assetKey pfx plan.fileBaseName resp.bytes plan.originalUrl
        (resp.contentType.getD "application/octet-stream") ∧
      (storesOf (handleSuccess plan pfx env false resp).2).head? =
        some (r.storageKey, []) := by
  unfold handleSuccess
  simp only [Bool.not_false, Bool.true_and, hex, if_true]
  split
  · split
    · exact ⟨_, _, rfl, rfl, rfl, rfl⟩
    · split
      · exact ⟨_, _, rfl, rfl, rfl, rfl⟩
      · exact ⟨_, _, rfl, rfl, rfl, rfl⟩
  · exact ⟨_, _, rfl, rfl, rfl, rfl⟩

/-- When every existence check fails, the success body is independent of
the force-reprocess flag. -/
theorem handleSuccess_checkfalse (plan : AssetPlan) (pfx : String)
    (env : DownloadEnv) (resp : FetchResponse) (force : Bool)
    (hck : ∀ k, env.checkExists k = false) :
    handleSuccess plan pfx env force resp = handleSuccess plan pfx env true resp := by
  unfold handleSuccess
  simp [hck]

/-- When every existence check fails, the success body takes the write
path: the head result carries the downloaded byte length and the stored
key, whose store call uploads the downloaded buffer itself. -/
theorem handleSuccess_checkfalse_head (plan : AssetPlan) (pfx : String)
    (env : DownloadEnv) (resp : FetchResponse) (force : Bool)
    (hck : ∀ k, env.checkExists k = false) :
    ∃ r tail k, (handleSuccess plan pfx env force resp).1 = r :: tail ∧
      r.size = resp.bytes.length ∧
      r.storageKey = env.storeKeyOf k ∧
      (storesOf (handleSuccess plan pfx env force resp).2).head? =
        some (k, resp.bytes) := by
  unfold handleSuccess
  simp only [hck, Bool.and_false, Bool.false_eq_true, if_false]
  split
  · split
    · exact ⟨_, _, _, rfl, rfl, rfl, rfl⟩
    · exact ⟨_, _, _, rfl, rfl, rfl, rfl⟩
  · exact ⟨_, _, _, rfl, rfl, rfl, rfl⟩

/-- When the dedup path cannot trigger, the force flag is invisible to the
whole attempt loop. -/
theorem attemptLoop_checkfalse (plan : AssetPlan) (pfx : String)
    (env : DownloadEnv) (force : Bool) (routes : List (Option String))
    (le : Option String) (hck : ∀ k, env.checkExists k = false) :
    attemptLoop plan pfx env force routes le =
      attemptLoop plan pfx env true routes le := by
  induction routes generalizing le with
  | nil => rfl
  | cons route rest ih =>
      simp only [attemptLoop]
      cases env.fetch plan.originalUrl route with
      | failure detail =>
          dsimp only
          rw [ih]
      | success resp =>
          dsimp only
          by_cases hok : responseOk resp.status = true
          · rw [if_pos hok, if_pos hok,
              handleSuccess_checkfalse plan pfx env resp force hck]
          · rw [if_neg hok, if_neg hok, ih]

/-- The head-result storage key of the success body is the derived
content-addressed key when the backend reports keys unchanged. -/
theorem handleSuccess_head_key (plan : AssetPlan) (pfx : String)
    (env : DownloadEnv) (force : Bool) (resp : FetchResponse)
    (hk : ∀ k, env.storeKeyOf k = k) :
    ∃ r tail, (handleSuccess plan pfx env force resp).1 = r :: tail ∧
      r.storageKey = assetKey pfx plan.fileBaseName resp.bytes plan.originalUrl
        (resp.contentType.getD "application/octet-stream") := by
  simp only [handleSuccess]
  split
  · split
    · split
      · exact ⟨_, _, rfl, rfl⟩
      · split
        · exact ⟨_, _, rfl, rfl⟩
        · exact ⟨_, _, rfl, rfl⟩
    · exact ⟨_, _, rfl, rfl⟩
  · split
    · split
      · exact ⟨_, _, rfl, hk _⟩
      · exact ⟨_, _, rfl, hk _⟩
    · exact ⟨_, _, rfl, hk _⟩

/-- Whether a download outcome is a success. -/
def isOkResult (x : Except String (List AssetUploadResult) × List Action) : Bool :=
  match x.1 with
  | Except.ok _ => true
  | Except.error _ => false

/-- The size reported in the head (original-resolution) result of a
download outcome. -/
def resultHeadSize (x : Except String (List AssetUploadResult) × List Action) :
    Option Nat :=
  match x.1 with
  | Except.ok (r :: _) => some r.size
  | _ => none

/-- The storage key of the head (original-resolution) result of a
download outcome. -/
def headStorageKey (x : Except String (List AssetUploadResult) × List Action) :
    Option String :=
  match x.1 with
  | Except.ok (r :: _) => some r.storageKey
  | _ => none

/-- A successful outcome yields the success body of some 2xx response. -/
theorem downloadAssetPlan_ok_elim (plan : AssetPlan) (pfx : String)
    (env : DownloadEnv) (pp : Bool) (pool sh : List String)
    (pref : Option String) (force : Bool)
    (h : isOkResult (downloadAssetPlan plan pfx env pp pool sh pref force) = true) :
    ∃ route resp, env.fetch plan.originalUrl route = FetchOutcome.success resp ∧
      responseOk resp.status = true ∧
      (downloadAssetPlan plan pfx env pp pool sh pref force).1 =
        Except.ok (handleSuccess plan pfx env force resp).1 ∧
      storesOf (downloadAssetPlan plan pfx env pp pool sh pref force).2 =
        storesOf (handleSuccess plan pfx env force resp).2 := by
  cases hval : (downloadAssetPlan plan pfx env pp pool sh pref force).1 with
  | error e =>
      rw [isOkResult, hval] at h
      simp at h
  | ok rs =>
      obtain ⟨route, resp, h1, h2, h3, h4⟩ :=
        attemptLoop_ok_characterization plan pfx env force _ none rs hval
      refine ⟨route, resp, h1, h2, ?_, h4⟩
      rw [h3]

/-! ## Claim C1 -/

/-- A concrete meta-logo plan. -/
def c1Plan : AssetPlan :=
  { scriptIndex := 0, entryType := EntryType.meta, entryId := "meta",
    entryName := Json.str "M", field := "logo",
    originalUrl := "http://h/l.png", fileBaseName := "M_Logo",
    variantIndex := none, variantLabel := some "Logo" }

/-- A download environment in which every key already exists (a
guaranteed dedup hit) and the fetch returns three bytes. -/
def c1Env : DownloadEnv :=
  { fetch := fun _ _ => FetchOutcome.success ⟨200, some "image/png", [1, 2, 3]⟩
    checkExists := fun _ => true
    storeKeyOf := fun k => k
    publicUrlOf := fun k => k
    resize := fun _ => none }

/-- **C1 counterexample**: with `forceReprocess` disabled and the derived
storage key already existing, the original-resolution result returned by
`downloadAssetPlan` for a three-byte download reports size 3 — the
downloaded byte count — not the size 0 the claim asserts. -/
theorem c1_dedup_size_counterexample :
    resultHeadSize (downloadAssetPlan c1Plan "p" c1Env false [] [] none false) =
      some 3 ∧ some (3 : Nat) ≠ some 0 :=
  ⟨rfl, by decide⟩

/-- **C1 (amended)**: on a dedup hit (derived key exists, `forceReprocess`
disabled) the original-resolution result of `downloadAssetPlan` has `size`
equal to the byte length of the freshly downloaded buffer, and the skip of
the re-upload is signalled by the empty-buffer store call issued for the
existing key — not by a zero `size`. -/
theorem c1_dedup_size_amended (plan : AssetPlan) (pfx : String)
    (env : DownloadEnv) (pp : Bool) (pool sh : List String)
    (pref : Option String)
    (hex : ∀ k, env.checkExists k = true)
    (h : isOkResult (downloadAssetPlan plan pfx env pp pool sh pref false) = true) :
    ∃ route resp k,
      env.fetch plan.originalUrl route = FetchOutcome.success resp ∧
      resultHeadSize (downloadAssetPlan plan pfx env pp pool sh pref false) =
        some resp.bytes.length ∧
      headStorageKey (downloadAssetPlan plan pfx env pp pool sh pref false) =
        some k ∧
      (storesOf (downloadAssetPlan plan pfx env pp pool sh pref false).2).head? =
        some (k, []) := by
  obtain ⟨route, resp, h1, h2, h3, h4⟩ :=
    downloadAssetPlan_ok_elim plan pfx env pp pool sh pref false h
  obtain ⟨r, tail, e1, e2, e3, e4⟩ :=
    handleSuccess_dedup_head plan pfx env resp (hex _)
  refine ⟨route, resp, r.storageKey, h1, ?_, ?_, ?_⟩
  · simp only [resultHeadSize, h3, e1, e2]
  · simp only [headStorageKey, h3, e1]
  · rw [h4]
    exact e4

/-- **C1 witness**: the amended statement at the concrete dedup-hit
environment. -/
theorem c1_dedup_size_amended_witness :
    (∀ k, c1Env.checkExists k = true) ∧
    isOkResult (downloadAssetPlan c1Plan "p" c1Env false [] [] none false) = true ∧
    (∃ route resp k,
      c1Env.fetch c1Plan.originalUrl route = FetchOutcome.success resp ∧
      resultHeadSize (downloadAssetPlan c1Plan "p" c1Env false [] [] none false) =
        some resp.bytes.length ∧
      headStorageKey (downloadAssetPlan c1Plan "p" c1Env false [] [] none false) =
        some k ∧
      (storesOf (downloadAssetPlan c1Plan "p" c1Env false [] [] none false).2).head? =
        some (k, [])) :=
  ⟨fun _ => rfl, rfl,
   c1_dedup_size_amended c1Plan "p" c1Env false [] [] none (fun _ => rfl) rfl⟩

/-! ## Claim C10 -/

/-- **C10**: in local storage mode the per-run existence check is
constantly false, so the dedup-hit branch of `downloadAssetPlan` is
unreachable — the run behaves exactly as if `forceReprocess` were set —
and every successfully downloaded asset is written out: the first store
call uploads the downloaded buffer itself under the derived key. -/
theorem c10_local_mode_no_dedup (s3e : String → Bool) (env : DownloadEnv)
    (plan : AssetPlan) (pfx : String) (pp : Bool) (pool sh : List String)
    (pref : Option String) (force : Bool)
    (henv : env.checkExists = mkCheckExists StorageMode.local s3e) :
    (∀ k, env.checkExists k = false) ∧
    downloadAssetPlan plan pfx env pp pool sh pref force =
      downloadAssetPlan plan pfx env pp pool sh pref true ∧
    ∀ rs, (downloadAssetPlan plan pfx env pp pool sh pref force).1 = Except.ok rs →
      ∃ r tail k route resp,
        rs = r :: tail ∧
        env.fetch plan.originalUrl route = FetchOutcome.success resp ∧
        r.size = resp.bytes.length ∧
        r.storageKey = env.storeKeyOf k ∧
        (storesOf (downloadAssetPlan plan pfx env pp pool sh pref force).2).head? =
          some (k, resp.bytes) := by
  have hck : ∀ k, env.checkExists k = false := fun k => by rw [henv]; rfl
  refine ⟨hck, ?_, ?_⟩
  · exact attemptLoop_checkfalse plan pfx env force _ none hck
  · intro rs h
    obtain ⟨route, resp, h1, h2, h3, h4⟩ :=
      attemptLoop_ok_characterization plan pfx env force _ none rs h
    obtain ⟨r, tail, k, e1, e2, e3, e4⟩ :=
      handleSuccess_checkfalse_head plan pfx env resp force hck
    refine ⟨r, tail, k, route, resp, by rw [h3, e1], h1, e2, e3, ?_⟩
    have h4d : storesOf (downloadAssetPlan plan pfx env pp pool sh pref force).2 =
        storesOf (handleSuccess plan pfx env force resp).2 := h4
    rw [h4d]
    exact e4

/-- A local-mode download environment for the C10 witness. -/
def c10Env : DownloadEnv :=
  { fetch := fun _ _ => FetchOutcome.success ⟨200, some "image/png", [1, 2, 3]⟩
    checkExists := mkCheckExists StorageMode.local (fun _ => true)
    storeKeyOf := mkStoreKeyOf StorageMode.local
    publicUrlOf := fun k => k
    resize := fun _ => none }

/-- **C10 witness**: in local mode, even with an S3 oracle that would
report every key present, the existence check is false everywhere and the
run equals its force-reprocess variant. -/
theorem c10_local_mode_no_dedup_witness :
    c10Env.checkExists = mkCheckExists StorageMode.local (fun _ => true) ∧
    (∀ k, c10Env.checkExists k = false) ∧
    downloadAssetPlan c1Plan "p" c10Env false [] [] none false =
      downloadAssetPlan c1Plan "p" c10Env false [] [] none true :=
  ⟨rfl,
   (c10_local_mode_no_dedup (fun _ => true) c10Env c1Plan "p" false [] [] none
      false rfl).1,
   (c10_local_mode_no_dedup (fun _ => true) c10Env c1Plan "p" false [] [] none
      false rfl).2.1⟩

/-! ## Claim C5 -/

/-- **C5**: two runs over identical raw script bytes and identical
resolved script name derive the same `storagePrefix`, and — whatever the
proxy configuration, routing, randomness, dedup outcomes, or force flag of
either run — identical downloaded asset bytes yield the identical derived
storage key `{prefix}/{sanitizedBaseName}_{contentHash}.{extension}` in
the original-resolution results of both runs. -/
theorem c5_prefix_and_key_deterministic (content₁ content₂ : List Nat)
    (name₁ name₂ : Json) (plan : AssetPlan) (env₁ env₂ : DownloadEnv)
    (pp₁ pp₂ : Bool) (pool₁ pool₂ sh₁ sh₂ : List String)
    (pref₁ pref₂ : Option String) (force₁ force₂ : Bool)
    (hc : content₁ = content₂) (hn : name₁ = name₂)
    (hbytes : ∀ r₁ r₂ o₁ o₂,
      env₁.fetch plan.originalUrl r₁ = FetchOutcome.success o₁ →
      env₂.fetch plan.originalUrl r₂ = FetchOutcome.success o₂ →
      o₁.bytes = o₂.bytes ∧ o₁.contentType = o₂.contentType)
    (hk₁ : ∀ k, env₁.storeKeyOf k = k) (hk₂ : ∀ k, env₂.storeKeyOf k = k)
    (h₁ : isOkResult (downloadAssetPlan plan (makeStoragePrefix content₁ name₁)
      env₁ pp₁ pool₁ sh₁ pref₁ force₁) = true)
    (h₂ : isOkResult (downloadAssetPlan plan (makeStoragePrefix content₂ name₂)
      env₂ pp₂ pool₂ sh₂ pref₂ force₂) = true) :
    makeStoragePrefix content₁ name₁ = makeStoragePrefix content₂ name₂ ∧
    ∃ (o₁ o₂ : FetchResponse),
      headStorageKey (downloadAssetPlan plan (makeStoragePrefix content₁ name₁)
        env₁ pp₁ pool₁ sh₁ pref₁ force₁) =
        some (assetKey (makeStoragePrefix content₁ name₁) plan.fileBaseName
          o₁.bytes plan.originalUrl
          (o₁.contentType.getD "application/octet-stream")) ∧
      headStorageKey (downloadAssetPlan plan (makeStoragePrefix content₂ name₂)
        env₂ pp₂ pool₂ sh₂ pref₂ force₂) =
        some (assetKey (makeStoragePrefix content₂ name₂) plan.fileBaseName
          o₂.bytes plan.originalUrl
          (o₂.contentType.getD "application/octet-stream")) ∧
      headStorageKey (downloadAssetPlan plan (makeStoragePrefix content₁ name₁)
        env₁ pp₁ pool₁ sh₁ pref₁ force₁) =
        headStorageKey (downloadAssetPlan plan (makeStoragePrefix content₂ name₂)
          env₂ pp₂ pool₂ sh₂ pref₂ force₂) := by
  subst hc
  subst hn
  refine ⟨rfl, ?_⟩
  obtain ⟨routeA, oA, a1, a2, a3, a4⟩ :=
    downloadAssetPlan_ok_elim plan _ env₁ pp₁ pool₁ sh₁ pref₁ force₁ h₁
  obtain ⟨routeB, oB, b1, b2, b3, b4⟩ :=
    downloadAssetPlan_ok_elim plan _ env₂ pp₂ pool₂ sh₂ pref₂ force₂ h₂
  obtain ⟨rA, tA, e1, e2⟩ :=
    handleSuccess_head_key plan (makeStoragePrefix content₁ name₁) env₁ force₁ oA hk₁
  obtain ⟨rB, tB, f1, f2⟩ :=
    handleSuccess_head_key plan (makeStoragePrefix content₁ name₁) env₂ force₂ oB hk₂
  obtain ⟨hb, hct⟩ := hbytes _ _ _ _ a1 b1
  refine ⟨oA, oB, ?_, ?_, ?_⟩
  · simp only [headStorageKey, a3, e1, e2]
  · simp only [headStorageKey, b3, f1, f2]
  · simp only [headStorageKey, a3, b3, e1, f1, e2, f2, hb, hct]

/-- A character-image plan for the C5 witness. -/
def c5Plan : AssetPlan :=
  { scriptIndex := 1, entryType := EntryType.character, entryId := "imp",
    entryName := Json.str "Imp", field := "image",
    originalUrl := "http://h/imp.png", fileBaseName := "Imp_Evil",
    variantIndex := some 0, variantLabel := some "Evil" }

/-- First-run environment for the C5 witness: no dedup hits. -/
def c5EnvA : DownloadEnv :=
  { fetch := fun _ _ => FetchOutcome.success ⟨200, some "image/png", [7, 8]⟩
    checkExists := fun _ => false
    storeKeyOf := fun k => k
    publicUrlOf := fun k => k
    resize := fun _ => none }

/-- Second-run environment for the C5 witness: every key already exists. -/
def c5EnvB : DownloadEnv :=
  { fetch := fun _ _ => FetchOutcome.success ⟨200, some "image/png", [7, 8]⟩
    checkExists := fun _ => true
    storeKeyOf := fun k => k
    publicUrlOf := fun k => k
    resize := fun _ => none }

/-- **C5 witness**: a fresh-upload run and an all-dedup-hit run over the
same bytes produce the same head storage key. -/
theorem c5_prefix_and_key_deterministic_witness :
    makeStoragePrefix [9] (Json.str "N") = makeStoragePrefix [9] (Json.str "N") ∧
    headStorageKey (downloadAssetPlan c5Plan (makeStoragePrefix [9] (Json.str "N"))
        c5EnvA false [] [] none false) =
      headStorageKey (downloadAssetPlan c5Plan (makeStoragePrefix [9] (Json.str "N"))
        c5EnvB true ["http://proxy"] ["http://proxy"] (some "http://proxy") false) :=
  by
  refine ⟨rfl, ?_⟩
  obtain ⟨-, o₁, o₂, -, -, h⟩ :=
    c5_prefix_and_key_deterministic [9] [9] (Json.str "N") (Json.str "N") c5Plan
      c5EnvA c5EnvB false true [] ["http://proxy"] [] ["http://proxy"] none
      (some "http://proxy") false false rfl rfl
      (fun _ _ _ _ hA hB => by
        cases hA
        cases hB
        exact ⟨rfl, rfl⟩)
      (fun _ => rfl) (fun _ => rfl) rfl rfl
  exact h

/-! ## Claim C3 -/

/-- Exhausting the attempt loop produces exactly the terminal download
failure message for the plan. -/
theorem attemptLoop_error_message (plan : AssetPlan) (pfx : String)
    (env : DownloadEnv) (force : Bool) (routes : List (Option String))
    (le : Option String) (e : String)
    (h : (attemptLoop plan pfx env force routes le).1 = Except.error e) :
    ∃ le2, e = downloadFailureMessage plan le2 := by
  induction routes generalizing le with
  | nil =>
      simp only [attemptLoop, Except.error.injEq] at h
      exact ⟨le, h.symm⟩
  | cons route rest ih =>
      simp only [attemptLoop] at h
      cases hf : env.fetch plan.originalUrl route with
      | failure detail =>
          rw [hf] at h
          dsimp only at h
          exact ih _ h
      | success resp =>
          rw [hf] at h
          dsimp only at h
          by_cases hok : responseOk resp.status = true
          · rw [if_pos hok] at h
            simp at h
          · rw [if_neg hok] at h
            exact ih _ h

/-- The success body stores objects only; it never persists a JSON
document. -/
theorem handleSuccess_trace_no_json (plan : AssetPlan) (pfx : String)
    (env : DownloadEnv) (force : Bool) (resp : FetchResponse) (k : String) :
    Action.storeJsonKey k ∉ (handleSuccess plan pfx env force resp).2 := by
  simp only [handleSuccess]
  split
  · split
    · split
      · simp
      · split <;> simp
    · simp
  · split
    · split <;> simp
    · simp

/-- The attempt loop fetches and stores objects only; it never persists a
JSON document. -/
theorem attemptLoop_trace_no_json (plan : AssetPlan) (pfx : String)
    (env : DownloadEnv) (force : Bool) (routes : List (Option String))
    (le : Option String) (k : String) :
    Action.storeJsonKey k ∉ (attemptLoop plan pfx env force routes le).2 := by
  induction routes generalizing le with
  | nil => simp [attemptLoop]
  | cons route rest ih =>
      simp only [attemptLoop]
      cases env.fetch plan.originalUrl route with
      | failure detail =>
          dsimp only
          simp only [List.mem_cons, not_or]
          exact ⟨by simp, ih _⟩
      | success resp =>
          dsimp only
          by_cases hok : responseOk resp.status = true
          · rw [if_pos hok]
            simp only [List.mem_cons, not_or]
            exact ⟨by simp, handleSuccess_trace_no_json plan pfx env force resp k⟩
          · rw [if_neg hok]
            simp only [List.mem_cons, not_or]
            exact ⟨by simp, ih _⟩

/-- If some plan of the worker queue fails its download, the serialized
coordinator rejects the batch with that plan's terminal failure message. -/
theorem runPlans_error (env : PipelineEnv) (pfx : String) (pool : List String)
    (start : Nat) (l : List AssetPlan)
    (h : ∃ i p, l.get? i = some p ∧
      ∃ e, (downloadAssetPlan p pfx (mkDownloadEnv env) env.preferProxy pool
        (env.planShuffle (start + i)) (env.preferredFor (start + i))
        env.forceReprocess).1 = Except.error e) :
    ∃ e2, (runPlans env pfx pool start l).1 = Except.error e2 ∧
      ∃ p le, p ∈ l ∧ e2 = downloadFailureMessage p le := by
  induction l generalizing start with
  | nil =>
      obtain ⟨i, p, hget, -⟩ := h
      simp at hget
  | cons q rest ih =>
      simp only [runPlans]
      cases hd : (downloadAssetPlan q pfx (mkDownloadEnv env) env.preferProxy pool
          (env.planShuffle start) (env.preferredFor start)
          env.forceReprocess).1 with
      | error e =>
          obtain ⟨le, hle⟩ := attemptLoop_error_message q pfx (mkDownloadEnv env)
            env.forceReprocess _ none e hd
          exact ⟨e, rfl, q, le, List.mem_cons_self _ _, hle⟩
      | ok assets =>
          obtain ⟨i, p, hget, e, he⟩ := h
          cases i with
          | zero =>
              simp only [List.get?] at hget
              obtain rfl : q = p := by
                injection hget
              simp only [Nat.add_zero] at he
              rw [he] at hd
              cases hd
          | succ j =>
              have hres := ih (start + 1)
                ⟨j, p, by simpa using hget, e, by
                  have harith : start + 1 + j = start + (j + 1) := by omega
                  rw [harith]
                  exact he⟩
              obtain ⟨e2, he2, p2, le2, hp2, hle2⟩ := hres
              refine ⟨e2, ?_, p2, le2, List.mem_cons_of_mem _ hp2, hle2⟩
              dsimp only
              rw [he2]
              rfl

/-- The serialized coordinator trace never contains a JSON persistence
action. -/
theorem runPlans_trace_no_json (env : PipelineEnv) (pfx : String)
    (pool : List String) (start : Nat) (l : List AssetPlan) (k : String) :
    Action.storeJsonKey k ∉ (runPlans env pfx pool start l).2 := by
  induction l generalizing start with
  | nil => simp [runPlans]
  | cons q rest ih =>
      simp only [runPlans]
      cases hd : (downloadAssetPlan q pfx (mkDownloadEnv env) env.preferProxy pool
          (env.planShuffle start) (env.preferredFor start)
          env.forceReprocess).1 with
      | error e =>
          dsimp only
          exact attemptLoop_trace_no_json q pfx (mkDownloadEnv env)
            env.forceReprocess _ none k
      | ok assets =>
          dsimp only
          simp only [List.mem_append, not_or]
          exact ⟨attemptLoop_trace_no_json q pfx (mkDownloadEnv env)
            env.forceReprocess _ none k, ih (start + 1)⟩

/-- **C3**: if any single plan exhausts all of its fetch attempts, the
whole run fails with that plan's single descriptive
`Failed to download image` error, and no JSON document — manifest,
original, rewritten, or rewritten_256 — is persisted for the run. -/
theorem c3_download_failure_aborts_run (scriptContent : List Nat)
    (script : List Json) (requestedName : Option String) (env : PipelineEnv)
    (h : ∃ i p, (collectAssetPlans script (requestedName.getD "Script")).1.get? i = some p ∧
      ∃ e, (downloadAssetPlan p
        (makeStoragePrefix scriptContent (resolveScriptName requestedName
          (collectAssetPlans script (requestedName.getD "Script")).2))
        (mkDownloadEnv env) env.preferProxy
        (if env.preferProxy then env.proxyList else [])
        (env.planShuffle i) (env.preferredFor i)
        env.forceReprocess).1 = Except.error e) :
    (∃ e2, (processScriptUpload scriptContent script requestedName env).1 =
        Except.error e2 ∧
      ∃ p le, p ∈ (collectAssetPlans script (requestedName.getD "Script")).1 ∧
        e2 = downloadFailureMessage p le) ∧
    ∀ k, Action.storeJsonKey k ∉
      (processScriptUpload scriptContent script requestedName env).2 := by
  have hne : ((collectAssetPlans script (requestedName.getD "Script")).1).isEmpty = false := by
    obtain ⟨i, p, hget, -⟩ := h
    cases hl : (collectAssetPlans script (requestedName.getD "Script")).1 with
    | nil => rw [hl] at hget; simp at hget
    | cons a as => simp [List.isEmpty]
  have h0 : ∃ i p, (collectAssetPlans script (requestedName.getD "Script")).1.get? i = some p ∧
      ∃ e, (downloadAssetPlan p
        (makeStoragePrefix scriptContent (resolveScriptName requestedName
          (collectAssetPlans script (requestedName.getD "Script")).2))
        (mkDownloadEnv env) env.preferProxy
        (if env.preferProxy then env.proxyList else [])
        (env.planShuffle (0 + i)) (env.preferredFor (0 + i))
        env.forceReprocess).1 = Except.error e := by
    obtain ⟨i, p, hget, e, he⟩ := h
    exact ⟨i, p, hget, e, by simpa using he⟩
  obtain ⟨e2, he2, p2, le2, hp2, hle2⟩ :=
    runPlans_error env
      (makeStoragePrefix scriptContent (resolveScriptName requestedName
        (collectAssetPlans script (requestedName.getD "Script")).2))
      (if env.preferProxy then env.proxyList else []) 0
      (collectAssetPlans script (requestedName.getD "Script")).1 h0
  constructor
  · refine ⟨e2, ?_, p2, le2, hp2, hle2⟩
    simp only [processScriptUpload, hne, Bool.false_eq_true, if_false]
    rw [he2]
  · intro k
    simp only [processScriptUpload, hne, Bool.false_eq_true, if_false]
    rw [he2]
    dsimp only
    simp only [List.mem_append, not_or]
    refine ⟨?_, runPlans_trace_no_json env _ _ 0 _ k⟩
    by_cases hpp : env.preferProxy = true <;> simp [hpp]

/-- A single-plan document whose asset URL is unreachable on every route. -/
def c3Doc : List Json :=
  [Json.obj [("id", Json.str "imp"), ("image", Json.str "http://h/i.png")]]

/-- A run environment whose fetches always fail. -/
def c3Env : PipelineEnv :=
  { fetch := fun _ _ => FetchOutcome.failure "boom"
    s3Exists := fun _ => false
    publicUrlOf := fun k => k
    resize := fun _ => none
    storageMode := StorageMode.local
    preferProxy := false
    proxyList := []
    planShuffle := fun _ => []
    preferredFor := fun _ => none
    forceReprocess := false }

/-- **C3 witness**: with every route failing, the single-plan run is
rejected with a download failure and persists nothing. -/
theorem c3_download_failure_aborts_run_witness :
    (∃ i p, (collectAssetPlans c3Doc ((none : Option String).getD "Script")).1.get? i = some p ∧
      ∃ e, (downloadAssetPlan p
        (makeStoragePrefix [1] (resolveScriptName none
          (collectAssetPlans c3Doc ((none : Option String).getD "Script")).2))
        (mkDownloadEnv c3Env) c3Env.preferProxy
        (if c3Env.preferProxy then c3Env.proxyList else [])
        (c3Env.planShuffle i) (c3Env.preferredFor i)
        c3Env.forceReprocess).1 = Except.error e) ∧
    (∃ e2, (processScriptUpload [1] c3Doc none c3Env).1 = Except.error e2 ∧
      ∃ p le, p ∈ (collectAssetPlans c3Doc ((none : Option String).getD "Script")).1 ∧
        e2 = downloadFailureMessage p le) :=
  ⟨⟨0, _, rfl, _, rfl⟩,
   (c3_download_failure_aborts_run [1] c3Doc none c3Env ⟨0, _, rfl, _, rfl⟩).1⟩

/-! ## Claim C7 -/

/-- Applying one result never touches entries at other indices, in either
copy. -/
theorem applyResult_frame (resized : List AssetUploadResult)
    (docs : List Json × List Json) (a : AssetUploadResult) (i : Nat)
    (h : a.scriptIndex ≠ i) :
    (applyResult resized docs a).1.get? i = docs.1.get? i ∧
    (applyResult resized docs a).2.get? i = docs.2.get? i := by
  unfold applyResult
  split
  · split
    · split
      · refine ⟨?_, ?_⟩
        · simp [List.get?_eq_getElem?, List.getElem?_set_ne h]
        · split <;> simp [List.get?_eq_getElem?, List.getElem?_set_ne h]
      · exact ⟨by simp [List.get?_eq_getElem?, List.getElem?_set_ne h],
               by simp [List.get?_eq_getElem?, List.getElem?_set_ne h]⟩
    · exact ⟨by simp [List.get?_eq_getElem?, List.getElem?_set_ne h],
             by simp [List.get?_eq_getElem?, List.getElem?_set_ne h]⟩
  · exact ⟨rfl, rfl⟩

/-- The whole rewrite fold leaves untargeted entries untouched. -/
theorem rewriteFold_frame (resized : List AssetUploadResult)
    (l : List AssetUploadResult) (docs : List Json × List Json) (i : Nat)
    (h : ∀ a ∈ l, a.scriptIndex ≠ i) :
    (l.foldl (applyResult resized) docs).1.get? i = docs.1.get? i ∧
    (l.foldl (applyResult resized) docs).2.get? i = docs.2.get? i := by
  induction l generalizing docs with
  | nil => exact ⟨rfl, rfl⟩
  | cons a rest ih =>
      simp only [List.foldl_cons]
      obtain ⟨h1, h2⟩ := applyResult_frame resized docs a i
        (h a (List.mem_cons_self _ _))
      obtain ⟨h3, h4⟩ := ih (applyResult resized docs a)
        (fun b hb => h b (List.mem_cons_of_mem _ hb))
      exact ⟨h3.trans h1, h4.trans h2⟩

/-- **C7**: the rewrite step is a pure function of the input document (the
source deep-copies via `structuredClone`, modelled as value copies), and
every document entry not targeted by any `AssetUploadResult` is left
identical to the corresponding entry of the input, in both rewritten
copies. -/
theorem c7_untargeted_entries_unchanged (script : List Json)
    (processedAssets : List AssetUploadResult) (i : Nat)
    (h : ∀ a ∈ processedAssets, a.scriptIndex ≠ i) :
    (rewriteDocs script processedAssets).1.get? i = script.get? i ∧
    (rewriteDocs script processedAssets).2.get? i = script.get? i := by
  simp only [rewriteDocs]
  exact rewriteFold_frame _ _ (script, script) i
    (fun a ha => h a (List.mem_of_mem_filter ha))

/-- A two-entry document for the C7 witness. -/
def c7Script : List Json :=
  [Json.obj [("id", Json.str "meta"), ("logo", Json.str "http://h/l.png")],
   Json.obj [("id", Json.str "x")]]

/-- A result row targeting entry 0 only. -/
def c7Asset : AssetUploadResult :=
  { toAssetPlan := c1Plan
    storageKey := "k"
    publicUrl := "https://cdn/k"
    contentType := "image/png"
    size := 1 }

/-- **C7 witness**: the entry at index 1, targeted by no result, is
unchanged in both copies. -/
theorem c7_untargeted_entries_unchanged_witness :
    (∀ a ∈ [c7Asset], a.scriptIndex ≠ 1) ∧
    ((rewriteDocs c7Script [c7Asset]).1.get? 1 = c7Script.get? 1 ∧
     (rewriteDocs c7Script [c7Asset]).2.get? 1 = c7Script.get? 1) :=
  ⟨fun a ha => by
      obtain rfl := List.mem_singleton.mp ha
      decide,
   c7_untargeted_entries_unchanged c7Script [c7Asset] 1
     (fun a ha => by
       obtain rfl := List.mem_singleton.mp ha
       decide)⟩

/-! ## Claim C6 — readers, shapes, and object/array lemmas -/

/-- The value of field `f` of the record entry at position `si`, if any. -/
def fieldAt (doc : List Json) (si : Nat) (f : String) : Option Json :=
  match doc.get? si with
  | some (Json.obj e) => objGet e f
  | _ => none

/-- The value at one rewrite target: the field itself, or the array slot
`i` inside it. -/
def readTarget (doc : List Json) (si : Nat) (f : String) (ai : Option Nat) :
    Option Json :=
  match ai with
  | none => fieldAt doc si f
  | some i =>
      match fieldAt doc si f with
      | some (Json.arr xs) => xs.get? i
      | _ => none

/-- Whether a record carries an array-valued `image` property. -/
def isArrImage (e : List (String × Json)) : Bool :=
  match objGet e "image" with
  | some (Json.arr _) => true
  | _ => false

/-- The array index addressed by a result: the variant slot for an
array-valued character image, and no index otherwise. -/
def arrIdxOf (a : AssetUploadResult) (e0 : List (String × Json)) : Option Nat :=
  if a.field = "image" ∧ isArrImage e0 = true then some (a.variantIndex.getD 0)
  else none

/-- The URL the preview copy receives for one original result: the matched
thumbnail URL or the original URL for a character image, and the original
URL itself for the meta singleton fields. -/
def previewUrlOf (resized : List AssetUploadResult) (a : AssetUploadResult) :
    String :=
  if a.field = "image" then
    previewUrl (resizedLookup resized a.scriptIndex (a.variantIndex.getD 0)) a
  else a.publicUrl

/-- Reading the just-assigned property. -/
theorem objGet_objSet_self (e : List (String × Json)) (k : String) (v : Json) :
    objGet (objSet e k v) k = some v := by
  induction e with
  | nil => simp [objSet, objGet]
  | cons p rest ih =>
      simp only [objSet]
      split
      · simp only [objGet]
        rw [if_pos]
        assumption
      · simp only [objGet]
        rw [if_neg]
        · exact ih
        · assumption

/-- Assignment leaves other properties unchanged. -/
theorem objGet_objSet_ne (e : List (String × Json)) (k k₂ : String) (v : Json)
    (h : k ≠ k₂) : objGet (objSet e k v) k₂ = objGet e k₂ := by
  induction e with
  | nil =>
      simp only [objSet, objGet]
      rw [if_neg]
      intro hc
      exact h hc
  | cons p rest ih =>
      simp only [objSet]
      split
      · simp only [objGet]
        split
        · rename_i hpk hpk2
          exact absurd (hpk.symm.trans hpk2) h
        · rfl
      · simp only [objGet]
        split
        · rfl
        · exact ih

/-- Reading the just-assigned array slot. -/
theorem jsSetIdx_get_self (xs : List Json) (i : Nat) (v : Json) :
    (jsSetIdx xs i v).get? i = some v := by
  unfold jsSetIdx
  split
  · rename_i hlt
    simp [List.get?_eq_getElem?, List.getElem?_set_eq_of_lt _ hlt]
  · rename_i hge
    have hle : xs.length ≤ i := Nat.le_of_not_lt hge
    rw [List.get?_eq_getElem?, List.append_assoc,
      List.getElem?_append_right hle,
      List.getElem?_append_right (by simp)]
    simp

/-- Assignment at a different slot preserves an existing array value. -/
theorem jsSetIdx_preserve_get (xs : List Json) (i j : Nat) (v w : Json)
    (hne : i ≠ j) (h : xs.get? j = some w) :
    (jsSetIdx xs i v).get? j = some w := by
  have hj : j < xs.length := by
    by_contra hc
    rw [List.get?_eq_getElem?, List.getElem?_eq_none (Nat.le_of_not_lt hc)] at h
    cases h
  unfold jsSetIdx
  split
  · rw [List.get?_eq_getElem?, List.getElem?_set_ne hne]
    rw [List.get?_eq_getElem?] at h
    exact h
  · rw [List.get?_eq_getElem?, List.append_assoc, List.getElem?_append,
      if_pos hj]
    rw [List.get?_eq_getElem?] at h
    exact h

/-- The per-index shape tie between the input document and an evolving
copy: wherever the input holds a record, the copy holds a record whose
`image` arrayness agrees with the input. -/
def entryShape (script : List Json) (si : Nat) (doc : List Json) : Prop :=
  ∀ e0, script.get? si = some (Json.obj e0) →
    ∃ e, doc.get? si = some (Json.obj e) ∧ isArrImage e = isArrImage e0

/-- The input document is tied to itself. -/
theorem entryShape_init (script : List Json) (si : Nat) :
    entryShape script si script :=
  fun e0 h => ⟨e0, h, rfl⟩

/-- Reading a field of a freshly replaced record entry. -/
theorem fieldAt_set_self (doc : List Json) (si : Nat) (e₂ : List (String × Json))
    (f : String) (h : si < doc.length) :
    fieldAt (doc.set si (Json.obj e₂)) si f = objGet e₂ f := by
  unfold fieldAt
  rw [List.get?_eq_getElem?, List.getElem?_set_eq_of_lt _ h]

/-- Replacing another entry leaves a field read unchanged. -/
theorem fieldAt_set_ne (doc : List Json) (si si₂ : Nat) (x : Json) (f : String)
    (h : si ≠ si₂) :
    fieldAt (doc.set si x) si₂ f = fieldAt doc si₂ f := by
  unfold fieldAt
  rw [List.get?_eq_getElem?, List.getElem?_set_ne h, ← List.get?_eq_getElem?]

/-- A target read depends only on the entry at its script index. -/
theorem readTarget_congr (doc doc₂ : List Json) (si : Nat) (f : String)
    (ai : Option Nat) (h : doc₂.get? si = doc.get? si) :
    readTarget doc₂ si f ai = readTarget doc si f ai := by
  unfold readTarget fieldAt
  rw [h]

/-- A record read implies the index is in range. -/
theorem get?_lt_length (doc : List Json) (si : Nat) (x : Json)
    (h : doc.get? si = some x) : si < doc.length := by
  by_contra hc
  rw [List.get?_eq_getElem?, List.getElem?_eq_none (Nat.le_of_not_lt hc)] at h
  cases h

/-- Arrayness of `image` after assigning `image`. -/
theorem isArrImage_objSet_image (e : List (String × Json)) (v : Json) :
    isArrImage (objSet e "image" v) =
      (match v with | Json.arr _ => true | _ => false) := by
  unfold isArrImage
  rw [objGet_objSet_self]
  cases v <;> rfl

/-- Arrayness of `image` is untouched by assigning another property. -/
theorem isArrImage_objSet_ne (e : List (String × Json)) (k : String) (v : Json)
    (h : k ≠ "image") : isArrImage (objSet e k v) = isArrImage e := by
  unfold isArrImage
  rw [objGet_objSet_ne _ _ _ _ h]

/-- The array-image test, characterized. -/
theorem isArrImage_true_iff (e : List (String × Json)) :
    isArrImage e = true ↔ ∃ xs, objGet e "image" = some (Json.arr xs) := by
  unfold isArrImage
  cases h : objGet e "image" with
  | none => simp
  | some u => cases u <;> simp

/-- A shape tie transfers along an unchanged entry read. -/
theorem entryShape_of_get_eq (script : List Json) (si : Nat)
    (doc doc₂ : List Json) (h : doc₂.get? si = doc.get? si)
    (hs : entryShape script si doc) : entryShape script si doc₂ := by
  intro e0 he0
  obtain ⟨e1, hge, hsh⟩ := hs e0 he0
  exact ⟨e1, by rw [h]; exact hge, hsh⟩

/-- A shape tie for an entry just replaced by a record of equal
arrayness. -/
theorem entryShape_of_set (script : List Json) (si : Nat) (doc : List Json)
    (e₁ e₂ : List (String × Json)) (hget : doc.get? si = some (Json.obj e₁))
    (harr : isArrImage e₂ = isArrImage e₁) (hs : entryShape script si doc) :
    entryShape script si (doc.set si (Json.obj e₂)) := by
  intro e0 he0
  obtain ⟨e1, hge, hsh⟩ := hs e0 he0
  rw [hget] at hge
  injection hge with hge
  injection hge with hge
  subst hge
  exact ⟨e₂, by
    rw [List.get?_eq_getElem?,
      List.getElem?_set_eq_of_lt _ (get?_lt_length _ _ _ hget)], harr.trans hsh⟩

/-- One rewrite application preserves the shape tie, in both copies. -/
theorem applyResult_shape (script : List Json) (si : Nat)
    (R : List AssetUploadResult) (docs : List Json × List Json)
    (b : AssetUploadResult) (h1 : entryShape script si docs.1)
    (h2 : entryShape script si docs.2) :
    entryShape script si (applyResult R docs b).1 ∧
    entryShape script si (applyResult R docs b).2 := by
  by_cases hbs : b.scriptIndex = si
  · subst hbs
    unfold applyResult
    split
    · rename_i e e256 heq1 heq2
      split
      · rename_i hfi
        split
        · rename_i xs harr
          constructor
          · refine entryShape_of_set script _ _ e _ heq1 ?_ h1
            rw [isArrImage_objSet_image,
              (isArrImage_true_iff e).mpr ⟨xs, harr⟩]
          · split
            · rename_i ys harr2
              refine entryShape_of_set script _ _ e256 _ heq2 ?_ h2
              rw [isArrImage_objSet_image,
                (isArrImage_true_iff e256).mpr ⟨ys, harr2⟩]
            · exact h2
        · rename_i hnarr
          have harrE : isArrImage e = false := by
            rw [Bool.eq_false_iff]
            intro htrue
            obtain ⟨xs, hxs⟩ := (isArrImage_true_iff e).mp htrue
            exact hnarr xs hxs
          constructor
          · refine entryShape_of_set script _ _ e _ heq1 ?_ h1
            rw [isArrImage_objSet_image, harrE]
          · -- the preview copy gets a scalar too; its old arrayness is
            -- also false whenever the tie is not vacuous
            by_cases hin : ∃ e0, script.get? b.scriptIndex = some (Json.obj e0)
            · obtain ⟨e0, he0⟩ := hin
              obtain ⟨e1, hge1, hsh1⟩ := h1 e0 he0
              obtain ⟨e1b, hge2, hsh2⟩ := h2 e0 he0
              rw [heq1] at hge1
              injection hge1 with hge1
              injection hge1 with hge1
              subst hge1
              rw [heq2] at hge2
              injection hge2 with hge2
              injection hge2 with hge2
              subst hge2
              refine entryShape_of_set script _ _ e256 _ heq2 ?_ h2
              rw [isArrImage_objSet_image, hsh2, ← hsh1, harrE]
            · -- vacuous tie: the input holds no record here
              intro e0 he0
              exact absurd ⟨e0, he0⟩ hin
      · rename_i hfne
        constructor
        · refine entryShape_of_set script _ _ e _ heq1 ?_ h1
          exact isArrImage_objSet_ne e b.field _ (fun hc => hfne (by rw [hc]))
        · refine entryShape_of_set script _ _ e256 _ heq2 ?_ h2
          exact isArrImage_objSet_ne e256 b.field _ (fun hc => hfne (by rw [hc]))
    · exact ⟨h1, h2⟩
  · have hfr := applyResult_frame R docs b si hbs
    exact ⟨entryShape_of_get_eq script si docs.1 _ hfr.1 h1,
           entryShape_of_get_eq script si docs.2 _ hfr.2 h2⟩

/-- Replacing an entry with an assignment to a different property leaves a
target read unchanged. -/
theorem readTarget_set_objSet_ne (doc : List Json) (si : Nat)
    (e : List (String × Json)) (K f : String) (V : Json) (ai : Option Nat)
    (hget : doc.get? si = some (Json.obj e)) (hne : K ≠ f) :
    readTarget (doc.set si (Json.obj (objSet e K V))) si f ai =
      readTarget doc si f ai := by
  unfold readTarget
  rw [fieldAt_set_self _ _ _ _ (get?_lt_length _ _ _ hget),
    objGet_objSet_ne _ _ _ _ hne]
  unfold fieldAt
  rw [hget]

/-- Reading back a scalar field write. -/
theorem readTarget_set_objSet_self_none (doc : List Json) (si : Nat)
    (e : List (String × Json)) (f : String) (V : Json)
    (hget : doc.get? si = some (Json.obj e)) :
    readTarget (doc.set si (Json.obj (objSet e f V))) si f none = some V := by
  unfold readTarget
  rw [fieldAt_set_self _ _ _ _ (get?_lt_length _ _ _ hget), objGet_objSet_self]

/-- Reading back an array field write at a slot. -/
theorem readTarget_set_objSet_arr (doc : List Json) (si : Nat)
    (e : List (String × Json)) (f : String) (xs : List Json) (j : Nat)
    (hget : doc.get? si = some (Json.obj e)) :
    readTarget (doc.set si (Json.obj (objSet e f (Json.arr xs)))) si f (some j) =
      xs.get? j := by
  unfold readTarget
  rw [fieldAt_set_self _ _ _ _ (get?_lt_length _ _ _ hget), objGet_objSet_self]

/-- Applying a result writes its URL into the targeted position of the
full copy and the thumbnail-or-original URL into the same position of the
preview copy. -/
theorem applyResult_write (script : List Json) (e0 : List (String × Json))
    (R : List AssetUploadResult) (docs : List Json × List Json)
    (a : AssetUploadResult)
    (he0 : script.get? a.scriptIndex = some (Json.obj e0))
    (h1 : entryShape script a.scriptIndex docs.1)
    (h2 : entryShape script a.scriptIndex docs.2) :
    readTarget (applyResult R docs a).1 a.scriptIndex a.field (arrIdxOf a e0) =
      some (Json.str a.publicUrl) ∧
    readTarget (applyResult R docs a).2 a.scriptIndex a.field (arrIdxOf a e0) =
      some (Json.str (previewUrlOf R a)) := by
  obtain ⟨e, hge, hsh⟩ := h1 e0 he0
  obtain ⟨e256, hge2, hsh2⟩ := h2 e0 he0
  unfold applyResult
  rw [hge, hge2]
  dsimp only
  by_cases hfi : a.field = "image"
  · rw [if_pos hfi]
    by_cases harr : isArrImage e0 = true
    · have harrE : isArrImage e = true := hsh.trans harr
      have harrE2 : isArrImage e256 = true := hsh2.trans harr
      obtain ⟨xs, hxs⟩ := (isArrImage_true_iff e).mp harrE
      obtain ⟨ys, hys⟩ := (isArrImage_true_iff e256).mp harrE2
      rw [hxs]
      dsimp only
      rw [hys]
      dsimp only
      have hai : arrIdxOf a e0 = some (a.variantIndex.getD 0) := by
        unfold arrIdxOf
        rw [if_pos ⟨hfi, harr⟩]
      rw [hai]
      constructor
      · rw [hfi, readTarget_set_objSet_arr docs.1 a.scriptIndex e "image" _ _ hge]
        exact jsSetIdx_get_self _ _ _
      · rw [hfi, readTarget_set_objSet_arr docs.2 a.scriptIndex e256 "image" _ _ hge2]
        rw [jsSetIdx_get_self _ _ _]
        unfold previewUrlOf
        rw [if_pos hfi]
    · have harrF : isArrImage e0 = false := by
        cases hb : isArrImage e0
        · rfl
        · exact absurd hb harr
      have harrE : isArrImage e = false := hsh.trans harrF
      split
      · rename_i xs hxs
        have := (isArrImage_true_iff e).mpr ⟨xs, hxs⟩
        rw [harrE] at this
        cases this
      · have hai : arrIdxOf a e0 = none := by
          unfold arrIdxOf
          rw [if_neg]
          rintro ⟨-, hc⟩
          exact harr hc
        rw [hai]
        constructor
        · rw [hfi]
          exact readTarget_set_objSet_self_none docs.1 a.scriptIndex e "image" _ hge
        · rw [hfi,
            readTarget_set_objSet_self_none docs.2 a.scriptIndex e256 "image" _ hge2]
          unfold previewUrlOf
          rw [if_pos hfi]
  · rw [if_neg hfi]
    have hai : arrIdxOf a e0 = none := by
      unfold arrIdxOf
      rw [if_neg]
      rintro ⟨hc, -⟩
      exact hfi hc
    rw [hai]
    constructor
    · exact readTarget_set_objSet_self_none docs.1 a.scriptIndex e a.field _ hge
    · rw [readTarget_set_objSet_self_none docs.2 a.scriptIndex e256 a.field _ hge2]
      unfold previewUrlOf
      rw [if_neg hfi]

/-- A non-conflicting later result leaves an established target read
untouched, in both copies. -/
theorem applyResult_preserve_read (script : List Json) (si : Nat)
    (e0 : List (String × Json)) (he0 : script.get? si = some (Json.obj e0))
    (f : String) (ai : Option Nat) (R : List AssetUploadResult)
    (docs : List Json × List Json) (b : AssetUploadResult)
    (h1 : entryShape script si docs.1) (h2 : entryShape script si docs.2)
    (hcond : b.scriptIndex = si → b.field = f →
      (f = "image" ∧ isArrImage e0 = true ∧
        ∃ j, ai = some j ∧ b.variantIndex.getD 0 ≠ j))
    (v1 v2 : Json)
    (hv1 : readTarget docs.1 si f ai = some v1)
    (hv2 : readTarget docs.2 si f ai = some v2) :
    readTarget (applyResult R docs b).1 si f ai = some v1 ∧
    readTarget (applyResult R docs b).2 si f ai = some v2 := by
  by_cases hbs : b.scriptIndex = si
  · subst hbs
    by_cases hbf : b.field = f
    · obtain ⟨hfi, harr0, j, haij, hvij⟩ := hcond rfl hbf
      subst haij
      obtain ⟨e, hge, hsh⟩ := h1 e0 he0
      obtain ⟨e256, hge2, hsh2⟩ := h2 e0 he0
      have harrE : isArrImage e = true := hsh.trans harr0
      have harrE2 : isArrImage e256 = true := hsh2.trans harr0
      obtain ⟨xs, hxs⟩ := (isArrImage_true_iff e).mp harrE
      obtain ⟨ys, hys⟩ := (isArrImage_true_iff e256).mp harrE2
      have hbfi : b.field = "image" := hbf.trans hfi
      unfold applyResult
      rw [hge, hge2]
      dsimp only
      rw [if_pos hbfi, hxs]
      dsimp only
      rw [hys]
      dsimp only
      -- extract the pre-state array reads
      unfold readTarget fieldAt at hv1 hv2
      rw [hge] at hv1
      rw [hge2] at hv2
      dsimp only at hv1 hv2
      rw [hfi, hxs] at hv1
      rw [hfi, hys] at hv2
      dsimp only at hv1 hv2
      constructor
      · rw [hfi, readTarget_set_objSet_arr docs.1 b.scriptIndex e "image" _ _ hge]
        exact jsSetIdx_preserve_get _ _ _ _ _ hvij hv1
      · rw [hfi, readTarget_set_objSet_arr docs.2 b.scriptIndex e256 "image" _ _ hge2]
        exact jsSetIdx_preserve_get _ _ _ _ _ hvij hv2
    · unfold applyResult
      split
      · rename_i e e256 heq1 heq2
        split
        · rename_i hbfi
          have hne : "image" ≠ f := by
            intro hc
            exact hbf (hbfi.trans hc)
          split
          · rename_i xs hxs
            refine ⟨?_, ?_⟩
            · rw [readTarget_set_objSet_ne docs.1 b.scriptIndex e "image" f _ _ heq1 hne]
              exact hv1
            · split
              · rename_i ys hys
                rw [readTarget_set_objSet_ne docs.2 b.scriptIndex e256 "image" f _ _ heq2 hne]
                exact hv2
              · exact hv2
          · refine ⟨?_, ?_⟩
            · rw [readTarget_set_objSet_ne docs.1 b.scriptIndex e "image" f _ _ heq1 hne]
              exact hv1
            · rw [readTarget_set_objSet_ne docs.2 b.scriptIndex e256 "image" f _ _ heq2 hne]
              exact hv2
        · refine ⟨?_, ?_⟩
          · rw [readTarget_set_objSet_ne docs.1 b.scriptIndex e b.field f _ _ heq1 hbf]
            exact hv1
          · rw [readTarget_set_objSet_ne docs.2 b.scriptIndex e256 b.field f _ _ heq2 hbf]
            exact hv2
      · exact ⟨hv1, hv2⟩
  · have hfr := applyResult_frame R docs b si hbs
    exact ⟨(readTarget_congr _ _ _ _ _ hfr.1).trans hv1,
           (readTarget_congr _ _ _ _ _ hfr.2).trans hv2⟩

/-- The shape tie survives the whole rewrite fold. -/
theorem rewriteFold_shape (script : List Json) (si : Nat)
    (R l : List AssetUploadResult) (docs : List Json × List Json)
    (h1 : entryShape script si docs.1) (h2 : entryShape script si docs.2) :
    entryShape script si (l.foldl (applyResult R) docs).1 ∧
    entryShape script si (l.foldl (applyResult R) docs).2 := by
  induction l generalizing docs with
  | nil => exact ⟨h1, h2⟩
  | cons b rest ih =>
      simp only [List.foldl_cons]
      obtain ⟨g1, g2⟩ := applyResult_shape script si R docs b h1 h2
      exact ih _ g1 g2

/-- An established target read survives a fold over non-conflicting
results. -/
theorem rewriteFold_preserve (script : List Json) (si : Nat)
    (e0 : List (String × Json)) (he0 : script.get? si = some (Json.obj e0))
    (f : String) (ai : Option Nat) (R : List AssetUploadResult)
    (l : List AssetUploadResult) (docs : List Json × List Json)
    (h1 : entryShape script si docs.1) (h2 : entryShape script si docs.2)
    (hconds : ∀ b ∈ l, b.scriptIndex = si → b.field = f →
      (f = "image" ∧ isArrImage e0 = true ∧
        ∃ j, ai = some j ∧ b.variantIndex.getD 0 ≠ j))
    (v1 v2 : Json)
    (hv1 : readTarget docs.1 si f ai = some v1)
    (hv2 : readTarget docs.2 si f ai = some v2) :
    readTarget (l.foldl (applyResult R) docs).1 si f ai = some v1 ∧
    readTarget (l.foldl (applyResult R) docs).2 si f ai = some v2 := by
  induction l generalizing docs with
  | nil => exact ⟨hv1, hv2⟩
  | cons b rest ih =>
      simp only [List.foldl_cons]
      obtain ⟨g1, g2⟩ := applyResult_preserve_read script si e0 he0 f ai R docs b
        h1 h2 (hconds b (List.mem_cons_self _ _)) v1 v2 hv1 hv2
      obtain ⟨s1, s2⟩ := applyResult_shape script si R docs b h1 h2
      exact ih _ s1 s2 (fun c hc => hconds c (List.mem_cons_of_mem _ hc)) g1 g2

/-- **C6**: in the rewritten copies, every original-resolution result
writes its public URL into its document position in the full copy, while
the preview (rewritten_256) copy receives the matching thumbnail's public
URL — matched by `(scriptIndex, variantIndex-or-0)` through the `(256px)`
sentinel — or the original URL when no thumbnail exists; for the meta
`logo` and `background` fields both copies receive the original URL
identically.  The hypotheses are the planner invariants: targets of
original results are pairwise distinct, and two distinct results may share
a script index and field only on an array-valued character image. -/
theorem c6_preview_prefers_thumbnails (script : List Json)
    (processedAssets : List AssetUploadResult) (a : AssetUploadResult)
    (e0 : List (String × Json))
    (ha : a ∈ processedAssets.filter (fun x => !isResizedLabel x.variantLabel))
    (hkey : (processedAssets.filter
        (fun x => !isResizedLabel x.variantLabel)).Pairwise
      (fun x y => planKey x.toAssetPlan ≠ planKey y.toAssetPlan))
    (he0 : script.get? a.scriptIndex = some (Json.obj e0))
    (hclash : ∀ b ∈ processedAssets.filter
        (fun x => !isResizedLabel x.variantLabel),
      b.scriptIndex = a.scriptIndex → b.field = a.field →
      planKey b.toAssetPlan ≠ planKey a.toAssetPlan →
      (a.field = "image" ∧ isArrImage e0 = true)) :
    readTarget (rewriteDocs script processedAssets).1 a.scriptIndex a.field
      (arrIdxOf a e0) = some (Json.str a.publicUrl) ∧
    readTarget (rewriteDocs script processedAssets).2 a.scriptIndex a.field
      (arrIdxOf a e0) =
      some (Json.str (previewUrlOf
        (processedAssets.filter (fun x => isResizedLabel x.variantLabel)) a)) := by
  simp only [rewriteDocs]
  obtain ⟨s, t, hst⟩ := List.append_of_mem ha
  have hpair : ∀ b ∈ t, planKey a.toAssetPlan ≠ planKey b.toAssetPlan := by
    rw [hst] at hkey
    exact (List.pairwise_cons.mp (List.pairwise_append.mp hkey).2.1).1
  rw [hst, List.foldl_append]
  simp only [List.foldl_cons]
  have hsh0 := rewriteFold_shape script a.scriptIndex
    (processedAssets.filter (fun x => isResizedLabel x.variantLabel)) s
    (script, script) (entryShape_init script a.scriptIndex)
    (entryShape_init script a.scriptIndex)
  have hw := applyResult_write script e0
    (processedAssets.filter (fun x => isResizedLabel x.variantLabel))
    _ a he0 hsh0.1 hsh0.2
  have hsh1 := applyResult_shape script a.scriptIndex
    (processedAssets.filter (fun x => isResizedLabel x.variantLabel))
    _ a hsh0.1 hsh0.2
  refine rewriteFold_preserve script a.scriptIndex e0 he0 a.field
    (arrIdxOf a e0)
    (processedAssets.filter (fun x => isResizedLabel x.variantLabel)) t _
    hsh1.1 hsh1.2 ?_ _ _ hw.1 hw.2
  intro b hb hbsi hbff
  have hbO : b ∈ processedAssets.filter (fun x => !isResizedLabel x.variantLabel) := by
    rw [hst]
    exact List.mem_append.mpr (Or.inr (List.mem_cons_of_mem _ hb))
  have hkne : planKey b.toAssetPlan ≠ planKey a.toAssetPlan :=
    (hpair b hb).symm
  obtain ⟨hfi, harr⟩ := hclash b hbO hbsi hbff hkne
  refine ⟨hfi, harr, a.variantIndex.getD 0, ?_, ?_⟩
  · unfold arrIdxOf
    rw [if_pos ⟨hfi, harr⟩]
  · intro hc
    apply hkne
    unfold planKey
    rw [hbsi, hbff, hc]

/-- The single-character document of the C6 witness. -/
def c6Script : List Json :=
  [Json.obj [("id", Json.str "imp"), ("name", Json.str "Imp"),
             ("team", Json.str "demon"), ("image", Json.str "http://h/imp.png")]]

/-- The record fields of the witness document entry. -/
def c6Entry : List (String × Json) :=
  [("id", Json.str "imp"), ("name", Json.str "Imp"),
   ("team", Json.str "demon"), ("image", Json.str "http://h/imp.png")]

/-- The original-resolution result of the witness run. -/
def c6OrigAsset : AssetUploadResult :=
  { scriptIndex := 0, entryType := EntryType.character, entryId := "imp",
    entryName := Json.str "Imp", field := "image",
    originalUrl := "http://h/imp.png", fileBaseName := "Imp_Evil",
    variantIndex := some 0, variantLabel := some "Evil",
    storageKey := "k", publicUrl := "U", contentType := "image/png", size := 3 }

/-- The companion thumbnail result of the witness run. -/
def c6ThumbAsset : AssetUploadResult :=
  { scriptIndex := 0, entryType := EntryType.character, entryId := "imp",
    entryName := Json.str "Imp", field := "image",
    originalUrl := "http://h/imp.png", fileBaseName := "Imp_Evil_256",
    variantIndex := some 0, variantLabel := some "Evil (256px)",
    storageKey := "k256", publicUrl := "T", contentType := "image/png", size := 2 }

/-- The manifest rows of the witness run. -/
def c6Assets : List AssetUploadResult := [c6OrigAsset, c6ThumbAsset]

/-- **C6 witness**: the full copy receives the original URL and the
preview copy the thumbnail URL at the character image position. -/
theorem c6_preview_prefers_thumbnails_witness :
    (c6OrigAsset ∈ c6Assets.filter (fun x => !isResizedLabel x.variantLabel)) ∧
    readTarget (rewriteDocs c6Script c6Assets).1 c6OrigAsset.scriptIndex
      c6OrigAsset.field (arrIdxOf c6OrigAsset c6Entry) =
      some (Json.str c6OrigAsset.publicUrl) ∧
    readTarget (rewriteDocs c6Script c6Assets).2 c6OrigAsset.scriptIndex
      c6OrigAsset.field (arrIdxOf c6OrigAsset c6Entry) =
      some (Json.str "T") := by
  have hmem : c6OrigAsset ∈ c6Assets.filter
      (fun x => !isResizedLabel x.variantLabel) :=
    List.mem_singleton.mpr rfl
  have hthm := c6_preview_prefers_thumbnails c6Script c6Assets c6OrigAsset
    c6Entry hmem (List.pairwise_singleton _ _) rfl
    (fun b hb _ _ h3 =>
      absurd (by rw [List.mem_singleton.mp hb]) h3)
  exact ⟨hmem, hthm.1, hthm.2⟩

end BotcImgHost
